import Mathlib

/-!
# FEM element core of ITK: `TriC02D` and `Element2DC0LinearLineStress`

A shallow embedding of

* `Code/Numerics/FEM/itkFEMElementTriC02D.cxx`
* `Code/Numerics/FEM/itkFEMElement2DC0LinearLineStress.cxx`

Conventions of the embedding.

* `Float` (a C++ `double`) is embedded as `ℚ`: all statements about numbers are statements
  in exact arithmetic.  Lean's division is total (`x / 0 = 0`) whereas IEEE division by zero
  gives an infinity or a NaN, so the *values* of the embedding are those of the code only
  where the denominators are non-zero.
* A pointer is embedded as an `Option`: `none` is the null pointer.  A pointee is embedded
  by its value.
* A function that may throw returns `Except FEMException _`.  A function that dereferences
  a member pointer without a test returns `Option _`, `none` standing for the undefined
  behaviour of dereferencing a null pointer.
* `vnl_matrix<Float>` is embedded as a function `Nat → Nat → Float` (row, column); writing an
  entry is `Mat.put`; a counted `for` loop is `forLoop`.
-/

namespace itk.fem

/-! ## Data model -/

/-- The scalar type `Float` of the FEM classes, in exact arithmetic. -/
abbrev Float := ℚ

/-- The exception classes thrown by the embedded code.  The first argument is the location
string the source passes to the exception's constructor. -/
inductive FEMException where
  | FEMExceptionWrongClass (location : String)
  | FEMExceptionObjectNotFound (location : String) (baseClassName : String) (GN : Int)
  | FEMExceptionIO (location : String) (moreDescription : String)
deriving DecidableEq

/-- A `NodeXY` object (or the `NodeXY` part of an object of a class derived from it). -/
structure NodeXY where
  GN : Int
  X : Float
  Y : Float
deriving DecidableEq

/-- A `MaterialStandard` object; `Ke` reads only `E` and `nu`. -/
structure MaterialStandard where
  GN : Int
  E : Float
  nu : Float
deriving DecidableEq

/-- A `MaterialLinearElasticity` object. -/
structure MaterialLinearElasticity where
  GN : Int
  E : Float
  nu : Float
deriving DecidableEq

/-- An object seen through a `Node` pointer, by its dynamic class. -/
inductive Node where
  | nodeXY (n : NodeXY)
  | otherNode (GN : Int)
deriving DecidableEq

/-- An object seen through a `Material` pointer, by its dynamic class. -/
inductive Material where
  | standard (m : MaterialStandard)
  | linearElasticity (m : MaterialLinearElasticity)
  | otherMaterial (GN : Int)
deriving DecidableEq

/-- Member `GN` of the base class, read through a `Node` pointer. -/
def Node.GN : Node → Int
  | .nodeXY n => n.GN
  | .otherNode g => g

/-- Member `GN` of the base class, read through a `Material` pointer. -/
def Material.GN : Material → Int
  | .standard m => m.GN
  | .linearElasticity m => m.GN
  | .otherMaterial g => g

/-- The cast `dynamic_cast<const NodeXY*>`: null when the class is wrong. -/
def dynamic_cast_NodeXY : Node → Option NodeXY
  | .nodeXY n => some n
  | .otherNode _ => none

/-- The cast `dynamic_cast<const MaterialStandard*>`: null when the class is wrong. -/
def dynamic_cast_MaterialStandard : Material → Option MaterialStandard
  | .standard m => some m
  | _ => none

/-- The cast `dynamic_cast<const MaterialLinearElasticity*>`: null when the class is wrong. -/
def dynamic_cast_MaterialLinearElasticity : Material → Option MaterialLinearElasticity
  | .linearElasticity m => some m
  | _ => none

/-- Modelled from the spec: the state of the base class `Element` (not under `src/`), of
which the spec names the element's own GN. -/
structure Element where
  GN : Int
deriving DecidableEq

/-- The state of a `TriC02D` object: the base-class part and the members `m_node[3]`,
`m_mat`. -/
structure TriC02D where
  base : Element
  m_node0 : Option NodeXY
  m_node1 : Option NodeXY
  m_node2 : Option NodeXY
  m_mat : Option MaterialStandard
deriving DecidableEq

/-- Modelled from the spec: the state of an `Element2DC0LinearLineStress` object.  The node
storage belongs to the superclass (not under `src/`), which per the spec stores node
references positionally; `m_mat` is the member the constructor sets. -/
structure Element2DC0LinearLineStress where
  m_node : Nat → Option Node
  m_mat : Option MaterialLinearElasticity

/-- Modelled from the spec: `SetNode(n, node)` of the superclass (not under `src/`) stores
the node reference at position `n`. -/
def Element2DC0LinearLineStress.SetNode (this : Element2DC0LinearLineStress) (n : Nat)
    (node : Option Node) : Element2DC0LinearLineStress :=
  { this with m_node := fun k => if k = n then node else this.m_node k }

/-! ## Constructors -/

/-- The constructor `TriC02D::TriC02D(n1_, n2_, n3_, p_)`.  The four arguments are
dereferenced, so they are objects; `base` is the base-class part as the superclass
constructor leaves it.  A reference `dynamic_cast` that fails throws `std::bad_cast`
(`none` in the `try` block below), which the `catch` turns into `FEMExceptionWrongClass`. -/
def TriC02D.ctor (base : Element) (n1_ n2_ n3_ : Node) (p_ : Material) :
    Except FEMException TriC02D :=
  let tryBlock : Option TriC02D := do
    let node0 ← dynamic_cast_NodeXY n1_
    let node1 ← dynamic_cast_NodeXY n2_
    let node2 ← dynamic_cast_NodeXY n3_
    let mat ← dynamic_cast_MaterialStandard p_
    pure { base := base, m_node0 := some node0, m_node1 := some node1,
           m_node2 := some node2, m_mat := some mat }
  match tryBlock with
  | some this => .ok this
  | none => .error (.FEMExceptionWrongClass "TriC02D::TriC02D()")

/-- The constructor `Element2DC0LinearLineStress(n1_, n2_, m_)`.  `this` is the object as
the superclass constructor leaves it.  The pointer `m_` may be null: the pointer
`dynamic_cast` of a null pointer is null. -/
def Element2DC0LinearLineStress.ctor
    (this : Element2DC0LinearLineStress) (n1_ n2_ : Option Node) (m_ : Option Material) :
    Except FEMException Element2DC0LinearLineStress :=
  let this := this.SetNode 0 n1_
  let this := this.SetNode 1 n2_
  let this := { this with m_mat := m_.bind dynamic_cast_MaterialLinearElasticity }
  if this.m_mat = none then
    .error (.FEMExceptionWrongClass
      "Element2DC0LinearLineStress::Element2DC0LinearLineStress()")
  else
    .ok this

/-! ## Matrices and loops -/

/-- A `vnl_matrix<Float>`, by its entries. -/
abbrev Mat := Nat → Nat → Float

/-- The assignment `M[i][j] = v`. -/
def Mat.put (M : Mat) (i j : Nat) (v : Float) : Mat :=
  fun a b => if a = i ∧ b = j then v else M a b

/-- The matrix after `fill(0.0)`; also used for a freshly declared matrix, every entry of
which the code writes before it is read. -/
def Mat.zero : Mat := fun _ _ => 0

/-- The loop `for (i = 0; i < n; i++) body`, on the state `s`. -/
def forLoop {σ : Type} (n : Nat) (body : Nat → σ → σ) (s : σ) : σ :=
  (List.range n).foldl (fun st i => body i st) s

/-! ## Stiffness computation of `TriC02D` -/

/-- `TriC02D::ComputeShapeFunctionDerivativesAt`: constant for the linear triangle. -/
def TriC02D.ComputeShapeFunctionDerivativesAt (_x : Nat → Float) : Mat :=
  let shapeD := Mat.zero
  let shapeD := shapeD.put 0 0 1
  let shapeD := shapeD.put 0 1 0
  let shapeD := shapeD.put 0 2 0
  let shapeD := shapeD.put 1 0 0
  let shapeD := shapeD.put 1 1 1
  let shapeD := shapeD.put 1 2 0
  let shapeD := shapeD.put 2 0 0
  let shapeD := shapeD.put 2 1 0
  let shapeD := shapeD.put 2 2 1
  shapeD

/-- `TriC02D::ComputeJacobianMatrixAt`, on the three dereferenced nodes. -/
def TriC02D.ComputeJacobianMatrixAt (n0 n1 n2 : NodeXY) (x : Nat → Float) : Mat :=
  let shapeD := TriC02D.ComputeShapeFunctionDerivativesAt x
  let J := Mat.zero
  let J := J.put 0 2 1
  let J := J.put 0 1 1
  let J := J.put 0 0 1
  let J := J.put 1 0 ((shapeD 0 0 * n0.X) + (shapeD 1 0 * n1.X) + (shapeD 2 0 * n2.X))
  let J := J.put 1 1 ((shapeD 0 1 * n0.X) + (shapeD 1 1 * n1.X) + (shapeD 2 1 * n2.X))
  let J := J.put 1 2 ((shapeD 0 2 * n0.X) + (shapeD 1 2 * n1.X) + (shapeD 2 2 * n2.X))
  let J := J.put 2 0 ((shapeD 0 0 * n0.Y) + (shapeD 1 0 * n1.Y) + (shapeD 2 0 * n2.Y))
  let J := J.put 2 1 ((shapeD 0 1 * n0.Y) + (shapeD 1 1 * n1.Y) + (shapeD 2 1 * n2.Y))
  let J := J.put 2 2 ((shapeD 0 2 * n0.Y) + (shapeD 1 2 * n1.Y) + (shapeD 2 2 * n2.Y))
  J

/-- `TriC02D::JacobianMatrixDeterminant`. -/
def TriC02D.JacobianMatrixDeterminant (J : Mat) : Float :=
  ((J 0 0 * J 1 1 * J 2 2) + (J 1 0 * J 2 1 * J 0 2) + (J 2 0 * J 0 1 * J 1 2))
    - ((J 2 0 * J 1 1 * J 0 2) + (J 1 0 * J 0 1 * J 2 2) + (J 0 0 * J 2 1 * J 1 2))

/-- `TriC02D::ComputeShapeFunctionCartDerivatives`. -/
def TriC02D.ComputeShapeFunctionCartDerivatives (J : Mat) (detJ : Float) : Mat :=
  let invj : Float := 1 / detJ
  let shapeINVD := Mat.zero
  let shapeINVD := shapeINVD.put 0 0 (invj * (J 2 1 - J 2 2))
  let shapeINVD := shapeINVD.put 0 1 (invj * (J 1 2 - J 1 1))
  let shapeINVD := shapeINVD.put 1 0 (invj * (J 2 2 - J 2 0))
  let shapeINVD := shapeINVD.put 1 1 (invj * (J 1 0 - J 1 2))
  let shapeINVD := shapeINVD.put 2 0 (invj * (J 2 0 - J 2 1))
  let shapeINVD := shapeINVD.put 2 1 (invj * (J 1 1 - J 1 0))
  shapeINVD

/-- `TriC02D::ComputeBMatrix`; `p = i << 1` is `2 * i`. -/
def TriC02D.ComputeBMatrix (shapeINVD : Mat) : Mat :=
  forLoop 3 (fun i B =>
    let p := 2 * i
    let B := B.put 0 p (shapeINVD i 0)
    let B := B.put 0 (p + 1) 0
    let B := B.put 1 p 0
    let B := B.put 1 (p + 1) (shapeINVD i 1)
    let B := B.put 2 p (shapeINVD i 1)
    let B := B.put 2 (p + 1) (shapeINVD i 0)
    B) Mat.zero

/-- `TriC02D::ComputeDBMatrix`. -/
def TriC02D.ComputeDBMatrix (D B : Mat) : Mat :=
  forLoop 3 (fun i DB =>
    forLoop 6 (fun j DB =>
      let DB := DB.put i j 0
      forLoop 3 (fun k DB => DB.put i j (DB i j + D i k * B k j)) DB) DB) Mat.zero

/-- The material properties matrix `D` that `TriC02D::Ke` builds from `m_mat`. -/
def TriC02D.materialD (m_mat : MaterialStandard) : Mat :=
  let disot : Float := (m_mat.E * (1 - m_mat.nu)) / ((1 + m_mat.nu) * (1 - 2 * m_mat.nu))
  let D := Mat.zero
  let D := D.put 0 0 disot
  let D := D.put 0 1 (disot * m_mat.nu / (1 - m_mat.nu))
  let D := D.put 0 2 0
  let D := D.put 1 0 (D 0 1)
  let D := D.put 1 1 disot
  let D := D.put 1 2 0
  let D := D.put 2 0 0
  let D := D.put 2 1 0
  let D := D.put 2 2 (disot * (1 - 2 * m_mat.nu) / (2 * (1 - m_mat.nu)))
  D

/-- The body of `TriC02D::Ke` on the dereferenced members `*m_node[0..2]` and `*m_mat`.
The function has no `throw` and no test of `detJ`. -/
def TriC02D.KeOn (n0 n1 n2 : NodeXY) (m_mat : MaterialStandard) : Mat :=
  let D := TriC02D.materialD m_mat
  let MatKe := Mat.zero
  let x : Nat → Float := fun _ => 0
  let J := TriC02D.ComputeJacobianMatrixAt n0 n1 n2 x
  let detJ := TriC02D.JacobianMatrixDeterminant J
  let detJ2 := detJ / 2
  let shapeINVD := TriC02D.ComputeShapeFunctionCartDerivatives J detJ
  let B := TriC02D.ComputeBMatrix shapeINVD
  let DB := TriC02D.ComputeDBMatrix D B
  forLoop 6 (fun i MatKe =>
    forLoop 6 (fun j MatKe =>
      let MatKe := MatKe.put i j 0
      let MatKe := forLoop 3 (fun k MatKe => MatKe.put i j (MatKe i j + B k i * DB k j)) MatKe
      MatKe.put i j (MatKe i j * detJ2)) MatKe) MatKe

/-- `TriC02D::Ke`: the members are dereferenced without a test (`none`: a null member). -/
def TriC02D.Ke (this : TriC02D) : Option Mat :=
  match this.m_node0, this.m_node1, this.m_node2, this.m_mat with
  | some n0, some n1, some n2, some m => some (TriC02D.KeOn n0 n1 n2 m)
  | _, _, _, _ => none

/-- The Jacobian determinant `detJ` that `TriC02D::Ke` computes for three nodes. -/
def TriC02D.detJ (n0 n1 n2 : NodeXY) : Float :=
  TriC02D.JacobianMatrixDeterminant (TriC02D.ComputeJacobianMatrixAt n0 n1 n2 (fun _ => 0))

/-- The strain matrix `B` that `TriC02D::Ke` computes for three nodes. -/
def TriC02D.strainB (n0 n1 n2 : NodeXY) : Mat :=
  TriC02D.ComputeBMatrix (TriC02D.ComputeShapeFunctionCartDerivatives
    (TriC02D.ComputeJacobianMatrixAt n0 n1 n2 (fun _ => 0)) (TriC02D.detJ n0 n1 n2))

/-- `TriC02D::ComputeShapeFunctionsAt`: the three shape functions at the local point
`x = (r, s, t)`. -/
def TriC02D.ComputeShapeFunctionsAt (x : Nat → Float) : Nat → Float :=
  let shapeF : Nat → Float := fun _ => 0
  let shapeF : Nat → Float := fun k => if k = 0 then x 0 else shapeF k
  let shapeF : Nat → Float := fun k => if k = 1 then x 1 else shapeF k
  let shapeF : Nat → Float := fun k => if k = 2 then x 2 else shapeF k
  shapeF

/-- `TriC02D::ComputePositionAt`, on the three dereferenced nodes: the global point of the
local point `x`, as the pair `(p[0], p[1])`. -/
def TriC02D.ComputePositionAt (n0 n1 n2 : NodeXY) (x : Nat → Float) : Float × Float :=
  let shapeF := TriC02D.ComputeShapeFunctionsAt x
  let p0 := (n0.X * shapeF 0) + (n1.X * shapeF 1) + (n2.X * shapeF 2)
  let p1 := (n0.Y * shapeF 0) + (n1.Y * shapeF 1) + (n2.Y * shapeF 2)
  (p0, p1)

/-- The quadratic form `xᵀ·K·x` of a 6×6 matrix. -/
def quadForm (K : Mat) (x : Fin 6 → Float) : Float :=
  ∑ i : Fin 6, ∑ j : Fin 6, x i * K i j * x j

/-- Entry `(i, j)` of the matrix product `Bᵀ·D·B`, for `B` of 3 rows and `D` of size 3×3. -/
def BtDB (B D : Mat) (i j : Nat) : Float :=
  ∑ k : Fin 3, ∑ l : Fin 3, B k i * D k l * B l j

/-- The local point `(r, s, t)` as the array `x` the member functions take. -/
def localPoint (r s t : Float) : Nat → Float :=
  fun k => if k = 0 then r else if k = 1 then s else t

/-- Three nodes are colinear when one line `a·x + b·y + c = 0` (with `(a, b) ≠ (0, 0)`)
passes through all of them. -/
def Colinear (n0 n1 n2 : NodeXY) : Prop :=
  ∃ a b c : ℚ, (a ≠ 0 ∨ b ≠ 0) ∧ a * n0.X + b * n0.Y + c = 0 ∧
    a * n1.X + b * n1.Y + c = 0 ∧ a * n2.X + b * n2.Y + c = 0

/-! ## Streams

`std::istream` and `std::ostream` over a character sequence, in the classic locale.  Of the
state bits only `failbit` is kept: `if (!f)` tests nothing else here, and `eofbit` can be
set only when no character is left, a state in which every later extraction fails whether or
not the bit is set. -/

/-- An input stream: the characters not yet extracted, and the `failbit`. -/
structure IStream where
  rest : List Char
  failbit : Bool
deriving DecidableEq

/-- An output stream over memory: the characters written so far, and the `failbit`.  The
stream does not fail by itself; a stream that has failed ignores what is inserted. -/
structure OStream where
  text : List Char
  failbit : Bool
deriving DecidableEq

/-- `isspace` in the classic locale: space, `\t`, `\n`, `\v`, `\f`, `\r`. -/
def isspace (c : Char) : Bool :=
  c.toNat = 32 || (9 ≤ c.toNat && c.toNat ≤ 13)

/-- `isdigit`. -/
def isdigit (c : Char) : Bool :=
  48 ≤ c.toNat && c.toNat ≤ 57

/-- The largest `int`. -/
def INT_MAX : Int := 2147483647

/-- The smallest `int`. -/
def INT_MIN : Int := -2147483648

/-- The decimal digits at the head of the input, accumulated onto `acc`, and what follows
them. -/
def readDigits : Nat → List Char → Nat × List Char
  | acc, [] => (acc, [])
  | acc, c :: cs =>
    if isdigit c then readDigits (acc * 10 + (c.toNat - 48)) cs else (acc, c :: cs)

/-- The formatted extraction `f >> n` of an `int`: leading white space is skipped, then an
optional sign and a non-empty run of decimal digits are extracted.  The extraction sets
`failbit` when the stream has already failed, when no digit is found (the end of the input
included), or when the value is not an `int`.  The second component is the value stored
in `n` (`0` after a failure, where the code does not read `n`). -/
def IStream.extractInt (f : IStream) : IStream × Int :=
  if f.failbit then (f, 0)
  else
    let s := f.rest.dropWhile isspace
    let signed : Bool × List Char :=
      match s with
      | c :: t => if c = '-' then (true, t) else if c = '+' then (false, t) else (false, s)
      | [] => (false, s)
    match signed.2 with
    | [] => ({ rest := [], failbit := true }, 0)
    | c :: t =>
      if isdigit c then
        let r := readDigits 0 (c :: t)
        let v : Int := if signed.1 then -(r.1 : Int) else (r.1 : Int)
        if INT_MIN ≤ v ∧ v ≤ INT_MAX then ({ rest := r.2, failbit := false }, v)
        else ({ rest := r.2, failbit := true }, 0)
      else ({ rest := c :: t, failbit := true }, 0)

/-- The characters of the loop of `SkipWhiteSpace` that remain: outside a comment
(`inComment = false`) white space is extracted (`std::ws`) and a `%` opens a comment; inside
a comment everything up to and including the end of the line is extracted
(`std::getline`). -/
def skipComments : Bool → List Char → List Char
  | _, [] => []
  | true, c :: cs => if c = '\n' then skipComments false cs else skipComments true cs
  | false, c :: cs =>
    if isspace c then skipComments false cs
    else if c = '%' then skipComments true cs
    else c :: cs

/-- Modelled from the spec: `SkipWhiteSpace(f)` of the FEM utilities (not under `src/`),
which makes the parser ignore comments: while the stream is good and the next character
after white space is `%`, the rest of the line is dropped. -/
def SkipWhiteSpace (f : IStream) : IStream :=
  if f.failbit then f else { f with rest := skipComments false f.rest }

/-- The digit character of `d < 10`. -/
def digitChar (d : Nat) : Char := Char.ofNat (48 + d)

/-- The decimal digits of `n` put in front of `acc`, most significant first; `fuel` bounds
the number of digits. -/
def natCharsAux : Nat → Nat → List Char → List Char
  | 0, _, acc => acc
  | fuel + 1, n, acc =>
    if n / 10 = 0 then digitChar (n % 10) :: acc
    else natCharsAux fuel (n / 10) (digitChar (n % 10) :: acc)

/-- The decimal representation of a natural number. -/
def natChars (n : Nat) : List Char := natCharsAux (n + 1) n []

/-- The characters that `f << n` inserts for an `int`. -/
def intChars (n : Int) : List Char :=
  if n < 0 then '-' :: natChars n.natAbs else natChars n.natAbs

/-- The insertion `f << s` of a character string. -/
def OStream.putStr (f : OStream) (s : List Char) : OStream :=
  if f.failbit then f else { f with text := f.text ++ s }

/-- The insertion `f << n` of an `int`. -/
def OStream.putInt (f : OStream) (n : Int) : OStream := f.putStr (intChars n)

/-! ## Reading and writing a `TriC02D` -/

/-- The resolution context `ReadInfoType`: the node array and the material array. -/
structure ReadInfoType where
  m_node : List Node
  m_mat : List Material

/-- Modelled from the spec: `FEMPArray<T>::Find(gn)` (not under `src/`) resolves a GN
against an array of the registry and throws `FEMExceptionObjectNotFound`, carrying the
name of the array's class and the GN, when no object has that GN.  The class name is the
implementation-defined `typeid` name in the code; the callers below pass the plain class
name. -/
def FEMPArray.Find {α : Type} (GN : α → Int) (baseClassName : String) (arr : List α)
    (gn : Int) : Except FEMException α :=
  match arr.find? (fun a => GN a == gn) with
  | some a => .ok a
  | none => .error (.FEMExceptionObjectNotFound "FEMPArray::Find() const" baseClassName gn)

/-- The type of `Superclass::Read(f, info)` (not under `src/`), acting on the base-class
part of the object and on the stream. -/
abbrev SuperRead := Element → IStream → ReadInfoType → Except FEMException (Element × IStream)

/-- The type of `Superclass::Write(f)` (not under `src/`). -/
abbrev SuperWrite := Element → OStream → Except FEMException OStream

/-- One field of the record as `TriC02D::Read` reads it: `SkipWhiteSpace(f); f >> n;`. -/
def readField (f : IStream) : IStream × Int := (SkipWhiteSpace f).extractInt

/-- `TriC02D::Read(f, info)`.  The `try` block yields the object and the stream with which
the label `out` is reached, by `goto out` or at its end; an exception of `Find` leaves it
through the `catch`. -/
def TriC02D.Read (superRead : SuperRead) (this : TriC02D) (f : IStream) (info : ReadInfoType) :
    Except FEMException (TriC02D × IStream) :=
  let nodes := info.m_node
  let mats := info.m_mat
  match superRead this.base f info with
  | .error e => .error e
  | .ok (base, f) =>
    let this := { this with base := base }
    let tryBlock : Except FEMException (TriC02D × IStream) :=
      let (f, n) := readField f
      if f.failbit then .ok (this, f)
      else
        match FEMPArray.Find Material.GN "Material" mats n with
        | .error e => .error e
        | .ok m =>
          let this := { this with m_mat := dynamic_cast_MaterialStandard m }
          let (f, n) := readField f
          if f.failbit then .ok (this, f)
          else
            match FEMPArray.Find Node.GN "Node" nodes n with
            | .error e => .error e
            | .ok nd =>
              let this := { this with m_node0 := dynamic_cast_NodeXY nd }
              let (f, n) := readField f
              if f.failbit then .ok (this, f)
              else
                match FEMPArray.Find Node.GN "Node" nodes n with
                | .error e => .error e
                | .ok nd =>
                  let this := { this with m_node1 := dynamic_cast_NodeXY nd }
                  let (f, n) := readField f
                  if f.failbit then .ok (this, f)
                  else
                    match FEMPArray.Find Node.GN "Node" nodes n with
                    | .error e => .error e
                    | .ok nd => .ok ({ this with m_node2 := dynamic_cast_NodeXY nd }, f)
    match tryBlock with
    | .error (.FEMExceptionObjectNotFound _ baseClassName GN) =>
      .error (.FEMExceptionObjectNotFound "TriC02D::Read()" baseClassName GN)
    | .error e => .error e
    | .ok (this, f) =>
      if f.failbit then
        .error ( FEMException.FEMExceptionIO "TriC02D::Read()" "Error reading FEM element!")
      else .ok (this, f)

/-- The characters `TriC02D::Write` inserts after the superclass part, for an element
whose members point to `mat`, `n0`, `n1`, `n2`. -/
def TriC02D.writeFields (f : OStream) (mat : MaterialStandard) (n0 n1 n2 : NodeXY) : OStream :=
  let f := ((f.putStr "\t".toList).putInt mat.GN).putStr "\t% MaterialStandard ID\n".toList
  let f := ((f.putStr "\t".toList).putInt n0.GN).putStr "\t% NodeXY 1 ID\n".toList
  let f := ((f.putStr "\t".toList).putInt n1.GN).putStr "\t% NodeXY 2 ID\n".toList
  let f := ((f.putStr "\t".toList).putInt n2.GN).putStr "\t% NodeXY 3 ID\n".toList
  f

/-- `TriC02D::Write(f)`.  The members are dereferenced without a test (`none`: a null
member). -/
def TriC02D.Write (superWrite : SuperWrite) (this : TriC02D) (f : OStream) :
    Option (Except FEMException OStream) :=
  match superWrite this.base f with
  | .error e => some (.error e)
  | .ok f =>
    match this.m_mat, this.m_node0, this.m_node1, this.m_node2 with
    | some mat, some n0, some n1, some n2 =>
      let f := TriC02D.writeFields f mat n0 n1 n2
      if f.failbit then
        some (.error
          ( FEMException.FEMExceptionIO "TriC02D::Write()" "Error writing FEM element!"))
      else some (.ok f)
    | _, _, _, _ => none

/-- The integer fields that successive `SkipWhiteSpace(f); f >> n;` read from a stream,
up to the first extraction that fails; `fuel` bounds their number. -/
def readFieldsAux : Nat → IStream → List Int
  | 0, _ => []
  | fuel + 1, f =>
    let r := readField f
    if r.1.failbit then [] else r.2 :: readFieldsAux fuel r.1

/-- All integer fields of a character sequence (every field takes at least one
character). -/
def readFields (s : List Char) : List Int :=
  readFieldsAux (s.length + 1) { rest := s, failbit := false }

/-- Modelled from the spec: the shared header read of the superclass (not under `src/`),
which reads the object's own GN as the first field of the record; the kind tag in front of
it has been consumed to construct the object. -/
def FEMLightObject.Read : SuperRead := fun this f _info =>
  let (f, n) := readField f
  if f.failbit then
    .error ( FEMException.FEMExceptionIO "FEMLightObject::Read()" "Error reading FEM object!")
  else .ok ({ this with GN := n }, f)

/-- Modelled from the spec: the shared header write of the superclass (not under `src/`),
here the part of it that `FEMLightObject.Read` reads back: the object's own GN. -/
def FEMLightObject.Write : SuperWrite := fun this f =>
  let f := ((f.putStr "\t".toList).putInt this.GN).putStr "\t% Global object number\n".toList
  if f.failbit then
    .error ( FEMException.FEMExceptionIO "FEMLightObject::Write()" "Error writing FEM object!")
  else .ok f

/-! ## Notions used to state the properties -/

/-- An `int` value. -/
def IsInt (n : Int) : Prop := INT_MIN ≤ n ∧ n ≤ INT_MAX

/-- Some object of the array has the GN `gn`. -/
def hasGN {α : Type} (GN : α → Int) (arr : List α) (gn : Int) : Bool :=
  arr.any (fun a => GN a == gn)

/-- The four integer fields of a record, read one after the other the way `TriC02D::Read`
reads a field, when all four extractions succeed. -/
def readFour (f : IStream) : Option (Int × Int × Int × Int) :=
  let r0 := readField f
  let r1 := readField r0.1
  let r2 := readField r1.1
  let r3 := readField r2.1
  if r0.1.failbit || r1.1.failbit || r2.1.failbit || r3.1.failbit then none
  else some (r0.2, r1.2, r2.2, r3.2)

/-- The first GN of a record, in the reading order material, node 1, node 2, node 3, that
has no entry in its array of the resolution context, with the name of the array's class. -/
def firstUnresolved (info : ReadInfoType) (g : Int × Int × Int × Int) : Option (String × Int) :=
  if !hasGN Material.GN info.m_mat g.1 then some ("Material", g.1)
  else if !hasGN Node.GN info.m_node g.2.1 then some ("Node", g.2.1)
  else if !hasGN Node.GN info.m_node g.2.2.1 then some ("Node", g.2.2.1)
  else if !hasGN Node.GN info.m_node g.2.2.2 then some ("Node", g.2.2.2)
  else none

/-- The extraction of one of the four fields fails, every field before it having been
read and its GN resolved. -/
def fieldReadFails (info : ReadInfoType) (f : IStream) : Prop :=
  let r0 := readField f
  let r1 := readField r0.1
  let r2 := readField r1.1
  let r3 := readField r2.1
  r0.1.failbit = true ∨
  (r0.1.failbit = false ∧ hasGN Material.GN info.m_mat r0.2 = true ∧ r1.1.failbit = true) ∨
  (r0.1.failbit = false ∧ hasGN Material.GN info.m_mat r0.2 = true ∧
    r1.1.failbit = false ∧ hasGN Node.GN info.m_node r1.2 = true ∧ r2.1.failbit = true) ∨
  (r0.1.failbit = false ∧ hasGN Material.GN info.m_mat r0.2 = true ∧
    r1.1.failbit = false ∧ hasGN Node.GN info.m_node r1.2 = true ∧
    r2.1.failbit = false ∧ hasGN Node.GN info.m_node r2.2 = true ∧ r3.1.failbit = true)

/-- The four fields of a record laid out as `TriC02D::Write` does, with arbitrary comment
texts `c0 … c3` after the `%`. -/
def fieldsWithComments (c0 c1 c2 c3 : List Char) (g0 g1 g2 g3 : Int) : List Char :=
  '\t' :: (intChars g0 ++ '\t' :: '%' :: (c0 ++ '\n' ::
  '\t' :: (intChars g1 ++ '\t' :: '%' :: (c1 ++ '\n' ::
  '\t' :: (intChars g2 ++ '\t' :: '%' :: (c2 ++ '\n' ::
  '\t' :: (intChars g3 ++ '\t' :: '%' :: (c3 ++ ['\n']))))))))

/-- Node 1 of the reference triangle, at `(0, 0)`. -/
def exNode0 : NodeXY := { GN := 1, X := 0, Y := 0 }

/-- Node 2 of the reference triangle, at `(1, 0)`. -/
def exNode1 : NodeXY := { GN := 2, X := 1, Y := 0 }

/-- Node 3 of the reference triangle, at `(0, 1)`. -/
def exNode2 : NodeXY := { GN := 3, X := 0, Y := 1 }

/-- A `MaterialStandard` with `E = 1` and `ν = 1/4`. -/
def exMaterial : MaterialStandard := { GN := 1, E := 1, nu := 1 / 4 }

/-- The reference triangle with GN 7. -/
def exElement : TriC02D :=
  { base := { GN := 7 }, m_node0 := some exNode0, m_node1 := some exNode1,
    m_node2 := some exNode2, m_mat := some exMaterial }

/-- A `TriC02D` object before `Read`: no member set. -/
def exFresh : TriC02D :=
  { base := { GN := 0 }, m_node0 := none, m_node1 := none, m_node2 := none, m_mat := none }

/-- A resolution context holding the three nodes and the material of `exElement`. -/
def exInfo : ReadInfoType :=
  { m_node := [.nodeXY exNode0, .nodeXY exNode1, .nodeXY exNode2],
    m_mat := [.standard exMaterial] }

/-- A resolution context in which material 1 is a `MaterialLinearElasticity`. -/
def exInfoOtherMaterial : ReadInfoType :=
  { m_node := [.nodeXY exNode0, .nodeXY exNode1, .nodeXY exNode2],
    m_mat := [.linearElasticity { GN := 1, E := 1, nu := 1 / 4 }] }

/-- A resolution context in which node 2 is not a `NodeXY`. -/
def exInfoOtherNode : ReadInfoType :=
  { m_node := [.nodeXY exNode0, .otherNode 2, .nodeXY exNode2],
    m_mat := [.standard exMaterial] }

/-- The reference triangle with its nodes in clockwise order `(0,0)`, `(0,1)`, `(1,0)`. -/
def exClockwise : TriC02D :=
  { base := { GN := 9 }, m_node0 := some exNode0, m_node1 := some exNode2,
    m_node2 := some exNode1, m_mat := some exMaterial }

/-- A degenerate triangle: three nodes on the line `y = x`. -/
def exColinear : TriC02D :=
  { base := { GN := 8 }, m_node0 := some { GN := 1, X := 0, Y := 0 },
    m_node1 := some { GN := 2, X := 1, Y := 1 }, m_node2 := some { GN := 3, X := 2, Y := 2 },
    m_mat := some exMaterial }

end itk.fem

/-!
# `ImageMaskSpatialObject`: the bounding box of the mask

A shallow embedding of `ComputeMyBoundingBoxInIndexSpace` and of `ComputeMyBoundingBox` of
`Modules/Core/SpatialObjects/include/itkImageMaskSpatialObject.hxx`.  Index values are
embedded as unbounded integers (no overflow of `IndexValueType`), and an image is embedded by
its regions and by the pixel value at every index; a `while` loop is embedded with a `fuel`
that bounds its number of iterations, `none` standing for a loop that has not finished.
In `ComputeMyBoundingBox` the counters `count` and `rowSize` have the type `int`: they are
embedded as integers kept in the range of a 32-bit `int` by `wrapInt`, which is the
conversion `int rowSize = ...GetSize()[0]` of a 64-bit size (the value modulo `2^32`, as
compilers implement it) and, for the arithmetic `rowSize-1` and `++count`, wrap-around where
C++ leaves an overflow undefined.  Coordinates of physical points are rationals, and the loop
over the iterator is a fold over the indices of the region in the order the iterator visits
them.
-/

namespace itk

/-! ## Images and regions -/

/-- Modelled from the spec: `Index<D>` (not under `src/`), one signed value per dimension. -/
abbrev IndexType (D : Nat) := Fin D → Int

/-- Modelled from the spec: `Size<D>` (not under `src/`), one unsigned value per
dimension. -/
abbrev SizeType (D : Nat) := Fin D → Nat

/-- The pixel type `TPixel`, compared with its zero value only. -/
abbrev PixelType := Int

/-- Modelled from the spec: `ImageRegion<D>` (not under `src/`), a start index and a size. -/
structure ImageRegion (D : Nat) where
  Index : IndexType D
  Size : SizeType D

/-- The region `RegionType{}`: index and size zero in every dimension. -/
def ImageRegion.empty (D : Nat) : ImageRegion D :=
  { Index := fun _ => 0, Size := fun _ => 0 }

/-- `region.GetNumberOfPixels()`. -/
def ImageRegion.GetNumberOfPixels {D : Nat} (r : ImageRegion D) : Nat :=
  ∏ d : Fin D, r.Size d

/-- `region.GetIndex(dim)`. -/
def ImageRegion.GetIndex {D : Nat} (r : ImageRegion D) (dim : Fin D) : Int := r.Index dim

/-- `region.SetIndex(dim, value)`. -/
def ImageRegion.SetIndex {D : Nat} (r : ImageRegion D) (dim : Fin D) (value : Int) :
    ImageRegion D :=
  { r with Index := Function.update r.Index dim value }

/-- `region.SetSize(dim, value)`. -/
def ImageRegion.SetSize {D : Nat} (r : ImageRegion D) (dim : Fin D) (value : Nat) :
    ImageRegion D :=
  { r with Size := Function.update r.Size dim value }

/-- The index `p` lies in the region. -/
def ImageRegion.IsInside {D : Nat} (r : ImageRegion D) (p : IndexType D) : Prop :=
  ∀ d : Fin D, r.Index d ≤ p d ∧ p d < r.Index d + r.Size d

/-- Modelled from the spec: an `Image<TPixel, D>` (not under `src/`), by its largest
possible region, its requested region and the pixel value at every index (the buffer is
taken to hold every index the code reads). -/
structure Image (D : Nat) where
  LargestPossibleRegion : ImageRegion D
  RequestedRegion : ImageRegion D
  pixel : IndexType D → PixelType

/-- The `n` consecutive index values from `lo` on. -/
def indexValues (lo : Int) (n : Nat) : List Int :=
  (List.range n).map (fun (k : Nat) => lo + (k : Int))

/-- Modelled from the spec: the indices an `ImageRegionConstIterator` (not under `src/`)
visits in a region, in its order (dimension 0 runs fastest). -/
def regionIndices : (D : Nat) → IndexType D → SizeType D → List (IndexType D)
  | 0, _, _ => [fun i => i.elim0]
  | D + 1, index, size =>
    (regionIndices D (fun d => index d.succ) (fun d => size d.succ)).flatMap
      (fun t => (indexValues (index 0) (size 0)).map (fun v => Fin.cons v t))

/-- The lambda `HasForegroundPixels(region)`: some pixel of the region is not zero. -/
def HasForegroundPixels {D : Nat} (image : Image D) (region : ImageRegion D) : Bool :=
  (regionIndices D region.Index region.Size).any (fun p => decide (image.pixel p ≠ 0))

/-- The lambda `CreateRegion(minIndex, maxIndex)`.  The value converted to
`SizeValueType` is not negative wherever the function calls it. -/
def CreateRegion {D : Nat} (minIndex maxIndex : IndexType D) : ImageRegion D :=
  { Index := minIndex, Size := fun dim => (maxIndex dim + 1 - minIndex dim).toNat }

/-! ## `ComputeMyBoundingBoxInIndexSpace` -/

/-- The loop `// Estimate minIndex[dim]`: `some none` is the `return {}` inside it,
`some (some subregion)` the subregion with which the loop ends. -/
def estimateMinIndex {D : Nat} (image : Image D) (dim : Fin D) (initialMaxIndexValue : Int) :
    Nat → ImageRegion D → Option (Option (ImageRegion D))
  | 0, _ => none
  | fuel + 1, subregion =>
    if HasForegroundPixels image subregion then some (some subregion)
    else
      let indexValue := subregion.GetIndex dim + 1
      if indexValue > initialMaxIndexValue then some none
      else estimateMinIndex image dim initialMaxIndexValue fuel
        (subregion.SetIndex dim indexValue)

/-- The loop `// Estimate maxIndex[dim]`; it has no exit but a subregion with a foreground
pixel. -/
def estimateMaxIndex {D : Nat} (image : Image D) (dim : Fin D) :
    Nat → ImageRegion D → Option (ImageRegion D)
  | 0, _ => none
  | fuel + 1, subregion =>
    if HasForegroundPixels image subregion then some subregion
    else estimateMaxIndex image dim fuel (subregion.SetIndex dim (subregion.GetIndex dim - 1))

/-- The body of the loop over `dim`, on the state `(minIndex, maxIndex)`: `some none` is
the `return {}`. -/
def boundsStep {D : Nat} (fuel : Nat) (image : Image D) (dim : Fin D)
    (st : IndexType D × IndexType D) : Option (Option (IndexType D × IndexType D)) :=
  let minIndex := st.1
  let maxIndex := st.2
  let subregion := (CreateRegion minIndex maxIndex).SetSize dim 1
  let initialMaxIndexValue := maxIndex dim
  match estimateMinIndex image dim initialMaxIndexValue fuel subregion with
  | none => none
  | some none => some none
  | some (some subregion) =>
    let minIndex := Function.update minIndex dim (subregion.GetIndex dim)
    let subregion := subregion.SetIndex dim initialMaxIndexValue
    match estimateMaxIndex image dim fuel subregion with
    | none => none
    | some subregion =>
      let maxIndex := Function.update maxIndex dim (subregion.GetIndex dim)
      some (some (minIndex, maxIndex))

/-- The loop `for (int dim = TDimension - 1; dim >= 0; --dim)`, over the dimensions still
to visit. -/
def boundsLoop {D : Nat} (fuel : Nat) (image : Image D) :
    List (Fin D) → IndexType D × IndexType D → Option (Option (IndexType D × IndexType D))
  | [], st => some (some st)
  | dim :: dims, st =>
    match boundsStep fuel image dim st with
    | none => none
    | some none => some none
    | some (some st) => boundsLoop fuel image dims st

/-- `ImageMaskSpatialObject::ComputeMyBoundingBoxInIndexSpace()`, on the image pointer of
the object; every `while` loop may take `fuel` iterations. -/
def ComputeMyBoundingBoxInIndexSpace {D : Nat} (fuel : Nat) (imagePointer : Option (Image D)) :
    Option (ImageRegion D) :=
  match imagePointer with
  | none => some (ImageRegion.empty D)
  | some image =>
    let requestedRegion := image.RequestedRegion
    if requestedRegion.GetNumberOfPixels = 0 then some (ImageRegion.empty D)
    else
      let imageSize := requestedRegion.Size
      let minIndex := requestedRegion.Index
      let maxIndex : IndexType D := fun d => minIndex d + (imageSize d : Int)
      let maxIndex : IndexType D := fun d => maxIndex d - 1
      match boundsLoop fuel image (List.finRange D).reverse (minIndex, maxIndex) with
      | none => none
      | some none => some (ImageRegion.empty D)
      | some (some st) => some (CreateRegion st.1 st.2)

/-- A 4×3 image (indices from `(10, 20)`) whose non-zero pixels are `(11, 21)` and
`(12, 22)`. -/
def exImage : Image 2 :=
  { LargestPossibleRegion := { Index := ![10, 20], Size := ![4, 3] },
    RequestedRegion := { Index := ![10, 20], Size := ![4, 3] },
    pixel := fun p => if (p 0 = 11 ∧ p 1 = 21) ∨ (p 0 = 12 ∧ p 1 = 22) then 1 else 0 }

/-! ## `ComputeMyBoundingBox` -/

/-- Modelled from the spec: `Point<double, D>` (not under `src/`), in exact arithmetic. -/
abbrev PointType (D : Nat) := Fin D → ℚ

/-- Modelled from the spec: `BoundingBox` (not under `src/`), by its minimum and maximum
corners. -/
structure BoundingBox (D : Nat) where
  Minimum : PointType D
  Maximum : PointType D

/-- `box->SetMinimum(point)`. -/
def BoundingBox.SetMinimum {D : Nat} (b : BoundingBox D) (point : PointType D) :
    BoundingBox D :=
  { b with Minimum := point }

/-- `box->SetMaximum(point)`. -/
def BoundingBox.SetMaximum {D : Nat} (b : BoundingBox D) (point : PointType D) :
    BoundingBox D :=
  { b with Maximum := point }

/-- Modelled from the spec: `box->ConsiderPoint(point)` (not under `src/`) widens the
bounds, component by component, so that they hold the point. -/
def BoundingBox.ConsiderPoint {D : Nat} (b : BoundingBox D) (point : PointType D) :
    BoundingBox D :=
  { Minimum := fun i => if point i < b.Minimum i then point i else b.Minimum i,
    Maximum := fun i => if point i > b.Maximum i then point i else b.Maximum i }

/-- The value of type `int` (32 bits, two's complement) that an integer converts to: the
integer modulo `2^32`, in the range from `-2^31` to `2^31 - 1`. -/
def wrapInt (x : Int) : Int :=
  (x + 2147483648) % 4294967296 - 2147483648

/-- The variables of the loop of `ComputeMyBoundingBox`: `first`, `prevValue`, `count` (an
`int`), the index of `prevIt`, and the bounding box of the object. -/
structure BoundingBoxScan (D : Nat) where
  first : Bool
  prevValue : PixelType
  count : Int
  prevIt : IndexType D
  box : BoundingBox D

/-- The body of the loop `while (!it.IsAtEnd())` of `ComputeMyBoundingBox`, for the
iterator at the index `it`; `TransformIndexToPhysicalPoint` is the map of the image (not
under `src/`), and `rowSize` is the value of the `int` variable `rowSize`. -/
def scanPixel {D : Nat} (image : Image D)
    (TransformIndexToPhysicalPoint : IndexType D → PointType D) (rowSize : Int)
    (st : BoundingBoxScan D) (it : IndexType D) : BoundingBoxScan D :=
  let value := image.pixel it
  let st : BoundingBoxScan D :=
    if value ≠ st.prevValue ∨ (st.count = wrapInt (rowSize - 1) ∧ value ≠ 0) then
      let tmpIndex := if value = 0 then st.prevIt else it
      let tmpPoint := TransformIndexToPhysicalPoint tmpIndex
      if st.first then
        { st with prevValue := value, first := false,
                  box := (st.box.SetMinimum tmpPoint).SetMaximum tmpPoint }
      else
        { st with prevValue := value, box := st.box.ConsiderPoint tmpPoint }
    else st
  let st : BoundingBoxScan D := { st with prevIt := it, count := wrapInt (st.count + 1) }
  if st.count = rowSize then { st with count := 0, prevValue := 0 } else st

/-- `ImageMaskSpatialObject::ComputeMyBoundingBox()`, on the image pointer of the object
(dereferenced without a test; `none`: a null pointer), the map of the image from indices to
physical points, and the bounding box of the object; the result is the bounding box the
function leaves.  The loop runs over the indices of the largest possible region, and
`rowSize` is the size of dimension 0 converted to `int`. -/
def ComputeMyBoundingBox {D : Nat} (imagePointer : Option (Image (D + 1)))
    (TransformIndexToPhysicalPoint : IndexType (D + 1) → PointType (D + 1))
    (box : BoundingBox (D + 1)) : Option (BoundingBox (D + 1)) :=
  match imagePointer with
  | none => none
  | some image =>
    let region := image.LargestPossibleRegion
    let rowSize : Int := wrapInt (region.Size 0 : Int)
    let st0 : BoundingBoxScan (D + 1) :=
      { first := true, prevValue := 0, count := 0, prevIt := region.Index, box := box }
    let st := (regionIndices (D + 1) region.Index region.Size).foldl
      (scanPixel image TransformIndexToPhysicalPoint rowSize) st0
    if st.first then
      some ((st.box.SetMinimum (fun _ => 0)).SetMaximum (fun _ => 0))
    else some st.box

/-- The map from indices to physical points is affine: an origin plus a matrix applied to
the index. -/
def IsAffine {D : Nat} (T : IndexType D → PointType D) : Prop :=
  ∃ (origin : Fin D → ℚ) (M : Fin D → Fin D → ℚ),
    ∀ (i : IndexType D) (c : Fin D), T i c = origin c + ∑ d : Fin D, M c d * (i d : ℚ)

/-- The identity map from indices to physical points (unit spacing, origin zero). -/
def identityTransform (D : Nat) : IndexType D → PointType D :=
  fun i c => (i c : ℚ)

/-- An image of one row of `2^32 + 7` pixels (indices from `(0, 0)`) whose non-zero pixels
are the last two of the row, `(2^32 + 5, 0)` and `(2^32 + 6, 0)`. -/
def exLongRow : Image 2 :=
  { LargestPossibleRegion := { Index := ![0, 0], Size := ![4294967303, 1] },
    RequestedRegion := { Index := ![0, 0], Size := ![4294967303, 1] },
    pixel := fun p => if (p 0 = 4294967301 ∨ p 0 = 4294967302) ∧ p 1 = 0 then 1 else 0 }

/-- The box is the exact hull of the physical points of the indices in `S`, the points
considered so far: no point yet while `first` holds, and afterwards every bound is the
least (greatest) coordinate of these points. -/
def IsHullOf {D : Nat} (T : IndexType D → PointType D) (st : BoundingBoxScan D)
    (S : Set (IndexType D)) : Prop :=
  (st.first = true ∧ S = ∅) ∨
  (st.first = false ∧ ∀ c : Fin D,
    (∀ p ∈ S, st.box.Minimum c ≤ T p c ∧ T p c ≤ st.box.Maximum c) ∧
    (∃ p ∈ S, T p c = st.box.Minimum c) ∧ (∃ p ∈ S, T p c = st.box.Maximum c))

end itk

namespace itk.fem

/-! ## Lemmas on loops and matrices -/

theorem forLoop_three {σ : Type} (body : Nat → σ → σ) (s : σ) :
    forLoop 3 body s = body 2 (body 1 (body 0 s)) := rfl

theorem forLoop_six {σ : Type} (body : Nat → σ → σ) (s : σ) :
    forLoop 6 body s = body 5 (body 4 (body 3 (body 2 (body 1 (body 0 s))))) := rfl

theorem ComputeBMatrix_entry (S : Mat) (r c : Nat) (hr : r < 3) (hc : c < 6) :
    TriC02D.ComputeBMatrix S r c =
      if r = 0 then (if c % 2 = 0 then S (c / 2) 0 else 0)
      else if r = 1 then (if c % 2 = 0 then 0 else S (c / 2) 1)
      else (if c % 2 = 0 then S (c / 2) 1 else S (c / 2) 0) := by
  interval_cases r <;> interval_cases c <;>
    simp [TriC02D.ComputeBMatrix, forLoop_three, Mat.put, Mat.zero]

theorem ComputeDBMatrix_entry (D B : Mat) (i j : Nat) (hi : i < 3) (hj : j < 6) :
    TriC02D.ComputeDBMatrix D B i j = 0 + D i 0 * B 0 j + D i 1 * B 1 j + D i 2 * B 2 j := by
  interval_cases i <;> interval_cases j <;>
    simp [TriC02D.ComputeDBMatrix, forLoop_three, forLoop_six, Mat.put, Mat.zero]

theorem KeLoop_entry (B DB : Mat) (detJ2 : Float) (i j : Nat) (hi : i < 6) (hj : j < 6) :
    forLoop 6 (fun i MatKe =>
      forLoop 6 (fun j MatKe =>
        let MatKe := MatKe.put i j 0
        let MatKe := forLoop 3 (fun k MatKe => MatKe.put i j (MatKe i j + B k i * DB k j)) MatKe
        MatKe.put i j (MatKe i j * detJ2)) MatKe) Mat.zero i j
      = (0 + B 0 i * DB 0 j + B 1 i * DB 1 j + B 2 i * DB 2 j) * detJ2 := by
  interval_cases i <;> interval_cases j <;>
    simp [forLoop_three, forLoop_six, Mat.put, Mat.zero]

/-- Entry `(i, j)` of the matrix `Ke` returns, in terms of `B`, `DB` and `detJ`. -/
theorem KeOn_entry (n0 n1 n2 : NodeXY) (m : MaterialStandard) (i j : Nat) (hi : i < 6)
    (hj : j < 6) :
    TriC02D.KeOn n0 n1 n2 m i j =
      (0 + TriC02D.strainB n0 n1 n2 0 i
            * TriC02D.ComputeDBMatrix (TriC02D.materialD m) (TriC02D.strainB n0 n1 n2) 0 j
         + TriC02D.strainB n0 n1 n2 1 i
            * TriC02D.ComputeDBMatrix (TriC02D.materialD m) (TriC02D.strainB n0 n1 n2) 1 j
         + TriC02D.strainB n0 n1 n2 2 i
            * TriC02D.ComputeDBMatrix (TriC02D.materialD m) (TriC02D.strainB n0 n1 n2) 2 j)
        * (TriC02D.detJ n0 n1 n2 / 2) :=
  KeLoop_entry _ _ _ i j hi hj

theorem materialD_entries (m : MaterialStandard) :
    TriC02D.materialD m 0 2 = 0 ∧ TriC02D.materialD m 1 2 = 0 ∧ TriC02D.materialD m 2 0 = 0 ∧
    TriC02D.materialD m 2 1 = 0 ∧ TriC02D.materialD m 1 0 = TriC02D.materialD m 0 1 := by
  simp [TriC02D.materialD, Mat.put, Mat.zero]

theorem KeOn_symm (n0 n1 n2 : NodeXY) (m : MaterialStandard) (i j : Nat) (hi : i < 6)
    (hj : j < 6) : TriC02D.KeOn n0 n1 n2 m i j = TriC02D.KeOn n0 n1 n2 m j i := by
  obtain ⟨h02, h12, h20, h21, h10⟩ := materialD_entries m
  rw [KeOn_entry _ _ _ _ i j hi hj, KeOn_entry _ _ _ _ j i hj hi]
  rw [ComputeDBMatrix_entry _ _ 0 j (by omega) hj, ComputeDBMatrix_entry _ _ 1 j (by omega) hj,
    ComputeDBMatrix_entry _ _ 2 j (by omega) hj, ComputeDBMatrix_entry _ _ 0 i (by omega) hi,
    ComputeDBMatrix_entry _ _ 1 i (by omega) hi, ComputeDBMatrix_entry _ _ 2 i (by omega) hi,
    h02, h12, h20, h21, h10]
  ring

/-- The determinant `Ke` computes, as a polynomial in the node coordinates. -/
theorem detJ_eq (n0 n1 n2 : NodeXY) :
    TriC02D.detJ n0 n1 n2 = (n1.X - n0.X) * (n2.Y - n0.Y) - (n2.X - n0.X) * (n1.Y - n0.Y) := by
  simp [TriC02D.detJ, TriC02D.JacobianMatrixDeterminant, TriC02D.ComputeJacobianMatrixAt,
    TriC02D.ComputeShapeFunctionDerivativesAt, Mat.put, Mat.zero]
  ring

/-! ## Lemmas on printing and parsing numbers -/

theorem digitChar_toNat (d : Nat) (hd : d < 10) : (digitChar d).toNat = 48 + d := by
  interval_cases d <;> rfl

theorem isdigit_digitChar (d : Nat) (hd : d < 10) : isdigit (digitChar d) = true := by
  interval_cases d <;> rfl

theorem readDigits_digitChar (a d : Nat) (hd : d < 10) (s : List Char) :
    readDigits a (digitChar d :: s) = readDigits (a * 10 + d) s := by
  simp [readDigits, isdigit_digitChar d hd, digitChar_toNat d hd]

theorem natCharsAux_append (fuel : Nat) : ∀ (n : Nat) (acc rest : List Char),
    natCharsAux fuel n acc ++ rest = natCharsAux fuel n (acc ++ rest) := by
  induction fuel with
  | zero => intro n acc rest; rfl
  | succ k ih =>
    intro n acc rest
    simp only [natCharsAux]
    split
    · rfl
    · rw [ih]; rfl

theorem readDigits_natCharsAux (fuel : Nat) : ∀ n : Nat, n < fuel →
    ∃ k : Nat, ∀ (a : Nat) (acc : List Char),
      readDigits a (natCharsAux fuel n acc) = readDigits (a * 10 ^ k + n) acc := by
  induction fuel with
  | zero => intro n hn; omega
  | succ f ih =>
    intro n hn
    by_cases h : n / 10 = 0
    · refine ⟨1, fun a acc => ?_⟩
      have hlt : n < 10 := by omega
      simp only [natCharsAux, h, if_true]
      rw [readDigits_digitChar a (n % 10) (Nat.mod_lt _ (by norm_num))]
      rw [Nat.mod_eq_of_lt hlt, pow_one]
    · obtain ⟨k, hk⟩ := ih (n / 10) (by omega)
      refine ⟨k + 1, fun a acc => ?_⟩
      simp only [natCharsAux, h, if_false]
      rw [hk, readDigits_digitChar _ (n % 10) (Nat.mod_lt _ (by norm_num))]
      congr 1
      have := Nat.div_add_mod n 10
      rw [pow_succ]
      nlinarith [this]

theorem natCharsAux_head (fuel : Nat) : ∀ (n : Nat) (acc : List Char),
    ∃ (d : Nat) (t : List Char), d < 10 ∧ natCharsAux (fuel + 1) n acc = digitChar d :: t := by
  induction fuel with
  | zero =>
    intro n acc
    refine ⟨n % 10, acc, Nat.mod_lt _ (by norm_num), ?_⟩
    simp [natCharsAux]
  | succ f ih =>
    intro n acc
    by_cases h : n / 10 = 0
    · exact ⟨n % 10, acc, Nat.mod_lt _ (by norm_num), by simp [natCharsAux, h]⟩
    · obtain ⟨d, t, hd, ht⟩ := ih (n / 10) (digitChar (n % 10) :: acc)
      refine ⟨d, t, hd, ?_⟩
      rw [← ht]
      conv_lhs => rw [natCharsAux]
      simp [h]

theorem readDigits_stop (a : Nat) (r : List Char)
    (hr : ∀ c t, r = c :: t → isdigit c = false) : readDigits a r = (a, r) := by
  cases r with
  | nil => rfl
  | cons c t => simp [readDigits, hr c t rfl]

theorem readDigits_natChars (n : Nat) (r : List Char) :
    readDigits 0 (natChars n ++ r) = readDigits n r := by
  obtain ⟨k, hk⟩ := readDigits_natCharsAux (n + 1) n (Nat.lt_succ_self n)
  have := hk 0 r
  rw [natChars, natCharsAux_append, List.nil_append, this]
  simp

theorem digitChar_plain (d : Nat) (hd : d < 10) :
    isspace (digitChar d) = false ∧ digitChar d ≠ '-' ∧ digitChar d ≠ '+' ∧
      digitChar d ≠ '%' := by
  interval_cases d <;> decide

theorem extractInt_intChars (n : Int) (hlo : INT_MIN ≤ n) (hhi : n ≤ INT_MAX) (r : List Char)
    (hr : ∀ c t, r = c :: t → isdigit c = false) :
    IStream.extractInt { rest := intChars n ++ r, failbit := false }
      = ({ rest := r, failbit := false }, n) := by
  obtain ⟨d, t, hd, ht⟩ := natCharsAux_head n.natAbs n.natAbs []
  obtain ⟨hsp, hminus, hplus, -⟩ := digitChar_plain d hd
  have hdig := isdigit_digitChar d hd
  have hnat : natChars n.natAbs = digitChar d :: t := ht
  have hread : readDigits 0 (digitChar d :: (t ++ r)) = (n.natAbs, r) := by
    have := readDigits_natChars n.natAbs r
    rw [hnat, readDigits_stop _ r hr] at this
    exact this
  by_cases hneg : n < 0
  · have hv : -((n.natAbs : Nat) : Int) = n := by omega
    have hsm : isspace '-' = false := by decide
    have hv' : -|n| = n := by rw [abs_of_neg hneg]; ring
    simp [IStream.extractInt, intChars, hneg, hnat, List.dropWhile_cons, hsm, hdig, hread,
      hv, hv', hlo, hhi]
  · have hv : ((n.natAbs : Nat) : Int) = n := by omega
    simp [IStream.extractInt, intChars, hneg, hnat, List.dropWhile_cons, hsp, hminus, hplus,
      hdig, hread, hv, hlo, hhi]

theorem intChars_head (n : Int) :
    ∃ c t, intChars n = c :: t ∧ isspace c = false ∧ c ≠ '%' := by
  obtain ⟨d, t, hd, ht⟩ := natCharsAux_head n.natAbs n.natAbs []
  obtain ⟨hsp, -, -, hpc⟩ := digitChar_plain d hd
  have hnat : natChars n.natAbs = digitChar d :: t := ht
  by_cases hneg : n < 0
  · exact ⟨'-', natChars n.natAbs, by simp [intChars, hneg], by decide, by decide⟩
  · exact ⟨digitChar d, t, by simp [intChars, hneg, hnat], hsp, hpc⟩

/-- Reading back one field as `Write` lays it out: a tab, the number, then something that
does not start with a digit. -/
theorem readField_written (n : Int) (hlo : INT_MIN ≤ n) (hhi : n ≤ INT_MAX) (r : List Char)
    (hr : ∀ c t, r = c :: t → isdigit c = false) :
    readField { rest := '\t' :: (intChars n ++ r), failbit := false }
      = ({ rest := r, failbit := false }, n) := by
  obtain ⟨c, t, hct, hsp, hpc⟩ := intChars_head n
  have htab : isspace '\t' = true := by decide
  have hskip : skipComments false ('\t' :: (intChars n ++ r)) = intChars n ++ r := by
    rw [skipComments, if_pos htab, hct, List.cons_append, skipComments]
    simp [hsp, hpc]
  simp only [readField, SkipWhiteSpace, hskip]
  exact extractInt_intChars n hlo hhi r hr

theorem skipComments_line (c s : List Char) (hc : '\n' ∉ c) :
    skipComments true (c ++ '\n' :: s) = skipComments false s := by
  induction c with
  | nil => simp [skipComments]
  | cons a t ih =>
    have ha : a ≠ '\n' := fun h => hc (by simp [h])
    have ht : '\n' ∉ t := fun h => hc (by simp [h])
    simp [skipComments, ha, ih ht]

theorem readField_comment (c s : List Char) (hc : '\n' ∉ c) :
    readField { rest := '\t' :: '%' :: (c ++ '\n' :: s), failbit := false }
      = readField { rest := s, failbit := false } := by
  have htab : isspace '\t' = true := by decide
  have hpc : isspace '%' = false := by decide
  simp [readField, SkipWhiteSpace, skipComments, htab, hpc, skipComments_line c s hc]

/-! ## Lemmas on `TriC02D::Read` -/

theorem Find_eq_ok_of_hasGN {α : Type} (GN : α → Int) (cls : String) (arr : List α) (gn : Int)
    (h : hasGN GN arr gn = true) : ∃ a, FEMPArray.Find GN cls arr gn = .ok a := by
  unfold FEMPArray.Find
  cases hf : arr.find? (fun a => GN a == gn) with
  | some a => exact ⟨a, rfl⟩
  | none =>
    rw [List.find?_eq_none] at hf
    simp only [hasGN, List.any_eq_true] at h
    obtain ⟨a, ha, hp⟩ := h
    exact absurd hp (hf a ha)

theorem Find_eq_error_of_not_hasGN {α : Type} (GN : α → Int) (cls : String) (arr : List α)
    (gn : Int) (h : hasGN GN arr gn = false) :
    FEMPArray.Find GN cls arr gn
      = .error (.FEMExceptionObjectNotFound "FEMPArray::Find() const" cls gn) := by
  unfold FEMPArray.Find
  cases hf : arr.find? (fun a => GN a == gn) with
  | none => rfl
  | some a =>
    have hmem := List.mem_of_find?_eq_some hf
    have hp := List.find?_some hf
    have : hasGN GN arr gn = true := by
      simp only [hasGN, List.any_eq_true]
      exact ⟨a, hmem, hp⟩
    rw [h] at this
    cases this

/-- `failbit` is never cleared by reading a field. -/
theorem readField_failbit (f : IStream) (h : f.failbit = true) :
    (readField f).1.failbit = true := by
  simp [readField, SkipWhiteSpace, IStream.extractInt, h]

theorem Read_ok_readFour (superRead : SuperRead) (this : TriC02D) (f : IStream)
    (info : ReadInfoType) (base : Element) (f1 : IStream)
    (hs : superRead this.base f info = .ok (base, f1)) (r : TriC02D × IStream)
    (hr : TriC02D.Read superRead this f info = .ok r) :
    (readField (readField (readField (readField f1).1).1).1).1.failbit = false := by
  simp only [TriC02D.Read, hs] at hr
  cases h0 : (readField f1).1.failbit
  · cases hm : FEMPArray.Find Material.GN "Material" info.m_mat (readField f1).2 with
    | error e => cases e <;> simp [h0, hm] at hr
    | ok m =>
      cases h1 : (readField (readField f1).1).1.failbit
      · cases ha : FEMPArray.Find Node.GN "Node" info.m_node (readField (readField f1).1).2 with
        | error e => cases e <;> simp [h0, hm, h1, ha] at hr
        | ok a =>
          cases h2 : (readField (readField (readField f1).1).1).1.failbit
          · cases hb : FEMPArray.Find Node.GN "Node" info.m_node
                (readField (readField (readField f1).1).1).2 with
            | error e => cases e <;> simp [h0, hm, h1, ha, h2, hb] at hr
            | ok b =>
              cases h3 : (readField (readField (readField (readField f1).1).1).1).1.failbit
              · rfl
              · simp [h0, hm, h1, ha, h2, hb, h3] at hr
          · simp [h0, hm, h1, ha, h2] at hr
      · simp [h0, hm, h1] at hr
  · simp [h0] at hr

theorem Read_fieldReadFails (superRead : SuperRead) (this : TriC02D) (f : IStream)
    (info : ReadInfoType) (base : Element) (f1 : IStream)
    (hs : superRead this.base f info = .ok (base, f1))
    (hfail : fieldReadFails info f1) :
    TriC02D.Read superRead this f info
      = .error ( FEMException.FEMExceptionIO "TriC02D::Read()" "Error reading FEM element!") := by
  simp only [fieldReadFails] at hfail
  rcases hfail with h0 | ⟨h0, g0, h1⟩ | ⟨h0, g0, h1, g1, h2⟩ | ⟨h0, g0, h1, g1, h2, g2, h3⟩
  · simp [TriC02D.Read, hs, h0]
  · obtain ⟨m, hm⟩ := Find_eq_ok_of_hasGN Material.GN "Material" _ _ g0
    simp [TriC02D.Read, hs, h0, hm, h1]
  · obtain ⟨m, hm⟩ := Find_eq_ok_of_hasGN Material.GN "Material" _ _ g0
    obtain ⟨a, ha⟩ := Find_eq_ok_of_hasGN Node.GN "Node" _ _ g1
    simp [TriC02D.Read, hs, h0, hm, h1, ha, h2]
  · obtain ⟨m, hm⟩ := Find_eq_ok_of_hasGN Material.GN "Material" _ _ g0
    obtain ⟨a, ha⟩ := Find_eq_ok_of_hasGN Node.GN "Node" _ _ g1
    obtain ⟨b, hb⟩ := Find_eq_ok_of_hasGN Node.GN "Node" _ _ g2
    simp [TriC02D.Read, hs, h0, hm, h1, ha, h2, hb, h3]

/-! ## Lemmas on the written record -/

theorem fieldsWithComments_append (c0 c1 c2 c3 : List Char) (g0 g1 g2 g3 : Int)
    (tail : List Char) :
    fieldsWithComments c0 c1 c2 c3 g0 g1 g2 g3 ++ tail =
      '\t' :: (intChars g0 ++ '\t' :: '%' :: (c0 ++ '\n' ::
      '\t' :: (intChars g1 ++ '\t' :: '%' :: (c1 ++ '\n' ::
      '\t' :: (intChars g2 ++ '\t' :: '%' :: (c2 ++ '\n' ::
      '\t' :: (intChars g3 ++ '\t' :: '%' :: (c3 ++ '\n' :: tail)))))))) := by
  simp [fieldsWithComments]

theorem readField_field (g : Int) (hg : IsInt g) (r : List Char) :
    readField { rest := '\t' :: (intChars g ++ '\t' :: r), failbit := false }
      = ({ rest := '\t' :: r, failbit := false }, g) := by
  apply readField_written g hg.1 hg.2
  intro c t h
  cases h
  decide

theorem writeFields_text (h : List Char) (mat : MaterialStandard) (n0 n1 n2 : NodeXY) :
    TriC02D.writeFields { text := h, failbit := false } mat n0 n1 n2 =
      { text := h ++ fieldsWithComments " MaterialStandard ID".toList " NodeXY 1 ID".toList
          " NodeXY 2 ID".toList " NodeXY 3 ID".toList mat.GN n0.GN n1.GN n2.GN,
        failbit := false } := by
  have e0 : "\t% MaterialStandard ID\n".toList
      = '\t' :: '%' :: (" MaterialStandard ID".toList ++ ['\n']) := by decide
  have e1 : "\t% NodeXY 1 ID\n".toList = '\t' :: '%' :: (" NodeXY 1 ID".toList ++ ['\n']) := by
    decide
  have e2 : "\t% NodeXY 2 ID\n".toList = '\t' :: '%' :: (" NodeXY 2 ID".toList ++ ['\n']) := by
    decide
  have e3 : "\t% NodeXY 3 ID\n".toList = '\t' :: '%' :: (" NodeXY 3 ID".toList ++ ['\n']) := by
    decide
  have et : "\t".toList = ['\t'] := by decide
  simp only [TriC02D.writeFields, OStream.putStr, OStream.putInt, fieldsWithComments, e0, e1,
    e2, e3, et]
  simp

theorem detJ_zero_iff_colinear (n0 n1 n2 : NodeXY) :
    TriC02D.detJ n0 n1 n2 = 0 ↔ Colinear n0 n1 n2 := by
  rw [detJ_eq]
  constructor
  · intro h
    by_cases h1 : n1.Y - n0.Y ≠ 0 ∨ n1.X - n0.X ≠ 0
    · refine ⟨n1.Y - n0.Y, -(n1.X - n0.X),
        -((n1.Y - n0.Y) * n0.X - (n1.X - n0.X) * n0.Y), ?_, by ring, by ring, ?_⟩
      · rcases h1 with h1 | h1
        · exact Or.inl h1
        · exact Or.inr (neg_ne_zero.mpr h1)
      · linear_combination -h
    · push_neg at h1
      obtain ⟨hy, hx⟩ := h1
      by_cases h2 : n2.Y - n0.Y ≠ 0 ∨ n2.X - n0.X ≠ 0
      · refine ⟨n2.Y - n0.Y, -(n2.X - n0.X),
          -((n2.Y - n0.Y) * n0.X - (n2.X - n0.X) * n0.Y), ?_, by ring, ?_, by ring⟩
        · rcases h2 with h2 | h2
          · exact Or.inl h2
          · exact Or.inr (neg_ne_zero.mpr h2)
        · linear_combination (n2.Y - n0.Y) * hx - (n2.X - n0.X) * hy
      · push_neg at h2
        obtain ⟨-, hx2⟩ := h2
        exact ⟨1, 0, -n0.X, Or.inl one_ne_zero, by ring, by linear_combination hx,
          by linear_combination hx2⟩
  · rintro ⟨a, b, c, hab, e0, e1, e2⟩
    have p1 : a * (n1.X - n0.X) + b * (n1.Y - n0.Y) = 0 := by linear_combination e1 - e0
    have p2 : a * (n2.X - n0.X) + b * (n2.Y - n0.Y) = 0 := by linear_combination e2 - e0
    rcases hab with ha | hb
    · apply mul_left_cancel₀ ha
      linear_combination (n2.Y - n0.Y) * p1 - (n1.Y - n0.Y) * p2
    · apply mul_left_cancel₀ hb
      linear_combination (n1.X - n0.X) * p2 - (n2.X - n0.X) * p1

/-- C1. Construction with a material of the wrong concrete class fails with
`FEMExceptionWrongClass` and yields no element, whatever the nodes: `TriC02D(n1, n2, n3, p)`
when `p` is not a `MaterialStandard`, and `Element2DC0LinearLineStress(n1, n2, m)` when `m`
is not (a pointer to) a `MaterialLinearElasticity`. -/
theorem ctor_wrong_material_class :
    (∀ (base : Element) (n1 n2 n3 : Node) (p : Material),
      (∀ m : MaterialStandard, p ≠ Material.standard m) →
      TriC02D.ctor base n1 n2 n3 p = .error (.FEMExceptionWrongClass "TriC02D::TriC02D()")) ∧
    (∀ (this : Element2DC0LinearLineStress) (n1 n2 : Option Node) (m : Option Material),
      (∀ s : MaterialLinearElasticity, m ≠ some (Material.linearElasticity s)) →
      Element2DC0LinearLineStress.ctor this n1 n2 m = .error (.FEMExceptionWrongClass
        "Element2DC0LinearLineStress::Element2DC0LinearLineStress()")) := by
  constructor
  · intro base n1 n2 n3 p hp
    have hcast : dynamic_cast_MaterialStandard p = none := by
      cases p with
      | standard m => exact absurd rfl (hp m)
      | linearElasticity m => rfl
      | otherMaterial g => rfl
    cases n1 <;> cases n2 <;> cases n3 <;>
      simp [TriC02D.ctor, dynamic_cast_NodeXY, hcast]
  · intro this n1 n2 m hm
    have hcast : m.bind dynamic_cast_MaterialLinearElasticity = none := by
      cases m with
      | none => rfl
      | some p =>
        cases p with
        | standard s => rfl
        | linearElasticity s => exact absurd rfl (hm s)
        | otherMaterial g => rfl
    simp [Element2DC0LinearLineStress.ctor, hcast]

/-- Witness of C1: the reference nodes with a `MaterialLinearElasticity` given to `TriC02D`,
and a `MaterialStandard` given to the line element. -/
theorem ctor_wrong_material_class_witness :
    TriC02D.ctor { GN := 7 } (.nodeXY exNode0) (.nodeXY exNode1) (.nodeXY exNode2)
        (.linearElasticity { GN := 1, E := 1, nu := 1 / 4 })
      = .error (.FEMExceptionWrongClass "TriC02D::TriC02D()") ∧
    Element2DC0LinearLineStress.ctor { m_node := fun _ => none, m_mat := none }
        (some (.nodeXY exNode0)) (some (.nodeXY exNode1)) (some (.standard exMaterial))
      = .error (.FEMExceptionWrongClass
        "Element2DC0LinearLineStress::Element2DC0LinearLineStress()") :=
  ⟨ctor_wrong_material_class.1 _ _ _ _ _ (fun _ h => by cases h),
   ctor_wrong_material_class.2 _ _ _ _ (fun _ h => by cases h)⟩

/-- C2 (the code at the failing inputs). `TriC02D::Read` returns normally, with a null
member, on a record whose material GN resolves to a material that is not a
`MaterialStandard`, and on a record whose second node GN resolves to a node that is not a
`NodeXY`: the result of the pointer `dynamic_cast` is not tested. -/
theorem Read_wrong_class_returns_null_member :
    TriC02D.Read FEMLightObject.Read exFresh
        { rest := "7 1 1 2 3\n".toList, failbit := false } exInfoOtherMaterial
      = .ok ({ base := { GN := 7 }, m_node0 := some exNode0, m_node1 := some exNode1,
               m_node2 := some exNode2, m_mat := none },
             { rest := ['\n'], failbit := false }) ∧
    TriC02D.Read FEMLightObject.Read exFresh
        { rest := "7 1 1 2 3\n".toList, failbit := false } exInfoOtherNode
      = .ok ({ base := { GN := 7 }, m_node0 := some exNode0, m_node1 := none,
               m_node2 := some exNode2, m_mat := some exMaterial },
             { rest := ['\n'], failbit := false }) := by
  constructor <;> rfl

/-! ## Errors of `TriC02D::Read` (C3, C4) -/

/-- C3. When the four integer fields of a record are readable and one of the GNs has no
entry in its array of the resolution context, `TriC02D::Read` fails with
`FEMExceptionObjectNotFound`, which carries the first such GN in the reading order
material, node 1, node 2, node 3 (and the class name of the array searched). -/
theorem Read_unresolved_reference (superRead : SuperRead) (this : TriC02D) (f : IStream)
    (info : ReadInfoType) (base : Element) (f1 : IStream) (g : Int × Int × Int × Int)
    (cls : String) (gn : Int)
    (hs : superRead this.base f info = .ok (base, f1))
    (hfour : readFour f1 = some g)
    (hun : firstUnresolved info g = some (cls, gn)) :
    TriC02D.Read superRead this f info
      = .error (.FEMExceptionObjectNotFound "TriC02D::Read()" cls gn) := by
  simp only [readFour] at hfour
  split at hfour
  · cases hfour
  · rename_i hbits
    simp only [Bool.or_eq_true, not_or, Bool.not_eq_true] at hbits
    obtain ⟨⟨⟨h0, h1⟩, h2⟩, h3⟩ := hbits
    cases hfour
    simp only [firstUnresolved] at hun
    cases hg0 : hasGN Material.GN info.m_mat (readField f1).2
    · simp [hg0] at hun
      obtain ⟨rfl, rfl⟩ := hun
      simp [TriC02D.Read, hs, h0, Find_eq_error_of_not_hasGN _ _ _ _ hg0]
    · obtain ⟨m, hm⟩ := Find_eq_ok_of_hasGN Material.GN "Material" _ _ hg0
      cases hg1 : hasGN Node.GN info.m_node (readField (readField f1).1).2
      · simp [hg0, hg1] at hun
        obtain ⟨rfl, rfl⟩ := hun
        simp [TriC02D.Read, hs, h0, hm, h1, Find_eq_error_of_not_hasGN _ _ _ _ hg1]
      · obtain ⟨a, ha⟩ := Find_eq_ok_of_hasGN Node.GN "Node" _ _ hg1
        cases hg2 : hasGN Node.GN info.m_node (readField (readField (readField f1).1).1).2
        · simp [hg0, hg1, hg2] at hun
          obtain ⟨rfl, rfl⟩ := hun
          simp [TriC02D.Read, hs, h0, hm, h1, ha, h2, Find_eq_error_of_not_hasGN _ _ _ _ hg2]
        · obtain ⟨b, hb⟩ := Find_eq_ok_of_hasGN Node.GN "Node" _ _ hg2
          cases hg3 : hasGN Node.GN info.m_node
              (readField (readField (readField (readField f1).1).1).1).2
          · simp [hg0, hg1, hg2, hg3] at hun
            obtain ⟨rfl, rfl⟩ := hun
            simp [TriC02D.Read, hs, h0, hm, h1, ha, h2, hb, h3,
              Find_eq_error_of_not_hasGN _ _ _ _ hg3]
          · simp [hg0, hg1, hg2, hg3] at hun

/-- Witness of C3: in the record `7 1 1 9 3` the GN 9 of node 2 is not registered. -/
theorem Read_unresolved_reference_witness :
    TriC02D.Read FEMLightObject.Read exFresh
        { rest := "7 1 1 9 3\n".toList, failbit := false } exInfo
      = .error (.FEMExceptionObjectNotFound "TriC02D::Read()" "Node" 9) :=
  Read_unresolved_reference FEMLightObject.Read exFresh
    { rest := "7 1 1 9 3\n".toList, failbit := false } exInfo { GN := 7 }
    { rest := " 1 1 9 3\n".toList, failbit := false } (1, 1, 9, 3) "Node" 9
    (by rfl) (by rfl) (by rfl)

/-- C4. When the extraction of one of the four integer fields fails (field missing, not a
number, or end of input), every field before it having been read and resolved,
`TriC02D::Read` fails with `FEMExceptionIO`; and `Read` returns normally only if all four
extractions succeeded. -/
theorem Read_malformed_record (superRead : SuperRead) (this : TriC02D) (f : IStream)
    (info : ReadInfoType) (base : Element) (f1 : IStream)
    (hs : superRead this.base f info = .ok (base, f1)) :
    (fieldReadFails info f1 →
      TriC02D.Read superRead this f info
        = .error ( FEMException.FEMExceptionIO "TriC02D::Read()" "Error reading FEM element!")) ∧
    (∀ r : TriC02D × IStream, TriC02D.Read superRead this f info = .ok r →
      (readFour f1).isSome = true) := by
  refine ⟨Read_fieldReadFails superRead this f info base f1 hs, fun r hr => ?_⟩
  have h3 := Read_ok_readFour superRead this f info base f1 hs r hr
  have h2 : (readField (readField (readField f1).1).1).1.failbit = false := by
    cases h : (readField (readField (readField f1).1).1).1.failbit
    · rfl
    · rw [readField_failbit _ h] at h3; cases h3
  have h1 : (readField (readField f1).1).1.failbit = false := by
    cases h : (readField (readField f1).1).1.failbit
    · rfl
    · rw [readField_failbit _ h] at h2; cases h2
  have h0 : (readField f1).1.failbit = false := by
    cases h : (readField f1).1.failbit
    · rfl
    · rw [readField_failbit _ h] at h1; cases h1
  simp [readFour, h0, h1, h2, h3]

/-- Witness of C4: in the record `7 1 1 x 3` the third field is not a number, and in the
record `7 1 1` the input ends before the third field. -/
theorem Read_malformed_record_witness :
    TriC02D.Read FEMLightObject.Read exFresh
        { rest := "7 1 1 x 3\n".toList, failbit := false } exInfo
      = .error ( FEMException.FEMExceptionIO "TriC02D::Read()" "Error reading FEM element!") ∧
    TriC02D.Read FEMLightObject.Read exFresh
        { rest := "7 1 1\n".toList, failbit := false } exInfo
      = .error ( FEMException.FEMExceptionIO "TriC02D::Read()" "Error reading FEM element!") :=
  ⟨(Read_malformed_record FEMLightObject.Read exFresh
      { rest := "7 1 1 x 3\n".toList, failbit := false } exInfo { GN := 7 }
      { rest := " 1 1 x 3\n".toList, failbit := false } (by rfl)).1
      (Or.inr (Or.inr (Or.inl ⟨by rfl, by rfl, by rfl, by rfl, by rfl⟩))),
   (Read_malformed_record FEMLightObject.Read exFresh
      { rest := "7 1 1\n".toList, failbit := false } exInfo { GN := 7 }
      { rest := " 1 1\n".toList, failbit := false } (by rfl)).1
      (Or.inr (Or.inr (Or.inl ⟨by rfl, by rfl, by rfl, by rfl, by rfl⟩)))⟩

/-! ## Round trip of `Write` and `Read` (C5, C6) -/

/-- C6. After the superclass part, `TriC02D::Write` inserts exactly the four fields
material GN, GN of node 0, of node 1, of node 2, each after a tab and followed by its
comment; read back field by field the way `Read` does, the text gives these four numbers in
this order and nothing more. -/
theorem Write_emits_four_fields (superWrite : SuperWrite) (base : Element)
    (mat : MaterialStandard) (n0 n1 n2 : NodeXY) (f f1 : OStream)
    (imat : IsInt mat.GN) (i0 : IsInt n0.GN) (i1 : IsInt n1.GN) (i2 : IsInt n2.GN)
    (hW : superWrite base f = .ok f1) (hgood : f1.failbit = false) :
    ∃ w : List Char,
      TriC02D.Write superWrite ⟨base, some n0, some n1, some n2, some mat⟩ f
        = some (.ok { text := f1.text ++ w, failbit := false }) ∧
      w = "\t".toList ++ intChars mat.GN ++ "\t% MaterialStandard ID\n".toList
          ++ "\t".toList ++ intChars n0.GN ++ "\t% NodeXY 1 ID\n".toList
          ++ "\t".toList ++ intChars n1.GN ++ "\t% NodeXY 2 ID\n".toList
          ++ "\t".toList ++ intChars n2.GN ++ "\t% NodeXY 3 ID\n".toList ∧
      readFields w = [mat.GN, n0.GN, n1.GN, n2.GN] := by
  obtain ⟨t1, b1⟩ := f1
  simp only at hgood
  subst hgood
  refine ⟨fieldsWithComments " MaterialStandard ID".toList " NodeXY 1 ID".toList
      " NodeXY 2 ID".toList " NodeXY 3 ID".toList mat.GN n0.GN n1.GN n2.GN, ?_, ?_, ?_⟩
  · simp [TriC02D.Write, hW, writeFields_text]
  · have e0 : "\t% MaterialStandard ID\n".toList
        = '\t' :: '%' :: (" MaterialStandard ID".toList ++ ['\n']) := by decide
    have e1 : "\t% NodeXY 1 ID\n".toList = '\t' :: '%' :: (" NodeXY 1 ID".toList ++ ['\n']) := by
      decide
    have e2 : "\t% NodeXY 2 ID\n".toList = '\t' :: '%' :: (" NodeXY 2 ID".toList ++ ['\n']) := by
      decide
    have e3 : "\t% NodeXY 3 ID\n".toList = '\t' :: '%' :: (" NodeXY 3 ID".toList ++ ['\n']) := by
      decide
    have et : "\t".toList = ['\t'] := by decide
    simp only [fieldsWithComments, e0, e1, e2, e3, et]
    simp
  · have hlen : ∃ k, (fieldsWithComments " MaterialStandard ID".toList " NodeXY 1 ID".toList
        " NodeXY 2 ID".toList " NodeXY 3 ID".toList mat.GN n0.GN n1.GN n2.GN).length + 1
        = k + 5 := by
      refine ⟨(fieldsWithComments " MaterialStandard ID".toList " NodeXY 1 ID".toList
        " NodeXY 2 ID".toList " NodeXY 3 ID".toList mat.GN n0.GN n1.GN n2.GN).length - 4, ?_⟩
      have : 4 ≤ (fieldsWithComments " MaterialStandard ID".toList " NodeXY 1 ID".toList
        " NodeXY 2 ID".toList " NodeXY 3 ID".toList mat.GN n0.GN n1.GN n2.GN).length := by
        simp [fieldsWithComments]
        omega
      omega
    obtain ⟨k, hk⟩ := hlen
    have a0 := fieldsWithComments_append " MaterialStandard ID".toList " NodeXY 1 ID".toList
      " NodeXY 2 ID".toList " NodeXY 3 ID".toList mat.GN n0.GN n1.GN n2.GN []
    rw [List.append_nil] at a0
    have e1 := readField_comment " MaterialStandard ID".toList
      ('\t' :: (intChars n0.GN ++ '\t' :: '%' :: (" NodeXY 1 ID".toList ++ '\n' ::
      '\t' :: (intChars n1.GN ++ '\t' :: '%' :: (" NodeXY 2 ID".toList ++ '\n' ::
      '\t' :: (intChars n2.GN ++ '\t' :: '%' :: (" NodeXY 3 ID".toList ++ '\n' :: [])))))))
      (by decide)
    rw [readField_field _ i0] at e1
    have e2 := readField_comment " NodeXY 1 ID".toList
      ('\t' :: (intChars n1.GN ++ '\t' :: '%' :: (" NodeXY 2 ID".toList ++ '\n' ::
      '\t' :: (intChars n2.GN ++ '\t' :: '%' :: (" NodeXY 3 ID".toList ++ '\n' :: [])))))
      (by decide)
    rw [readField_field _ i1] at e2
    have e3 := readField_comment " NodeXY 2 ID".toList
      ('\t' :: (intChars n2.GN ++ '\t' :: '%' :: (" NodeXY 3 ID".toList ++ '\n' :: [])))
      (by decide)
    rw [readField_field _ i2] at e3
    have e4 := readField_comment " NodeXY 3 ID".toList [] (by decide)
    have e5 : (readField { rest := [], failbit := false }).1.failbit = true := by rfl
    rw [readFields, hk, a0]
    simp only [readFieldsAux, readField_field _ imat, e1, e2, e3, e4, e5, Bool.false_eq_true,
      if_false, if_true]

/-- Witness of C6: the reference element written by `FEMLightObject.Write` and
`TriC02D::Write` to an empty stream. -/
theorem Write_emits_four_fields_witness :
    ∃ w : List Char,
      TriC02D.Write FEMLightObject.Write exElement { text := [], failbit := false }
        = some (.ok { text := "\t7\t% Global object number\n".toList ++ w, failbit := false }) ∧
      w = "\t".toList ++ intChars 1 ++ "\t% MaterialStandard ID\n".toList
          ++ "\t".toList ++ intChars 1 ++ "\t% NodeXY 1 ID\n".toList
          ++ "\t".toList ++ intChars 2 ++ "\t% NodeXY 2 ID\n".toList
          ++ "\t".toList ++ intChars 3 ++ "\t% NodeXY 3 ID\n".toList ∧
      readFields w = [1, 1, 2, 3] :=
  Write_emits_four_fields FEMLightObject.Write { GN := 7 } exMaterial exNode0 exNode1 exNode2
    { text := [], failbit := false }
    { text := "\t7\t% Global object number\n".toList, failbit := false }
    ⟨by decide, by decide⟩ ⟨by decide, by decide⟩ ⟨by decide, by decide⟩
    ⟨by decide, by decide⟩ (by rfl) (by rfl)

/-! ## The stiffness matrix (C7 – C10) -/

/-- C7 as stated fails: on the degenerate element `exColinear`, whose three nodes lie on the
line `y = x` and whose Jacobian determinant is zero, `TriC02D::Ke` returns a matrix to its
caller; it reports no failure. -/
theorem Ke_colinear_returns_matrix :
    Colinear { GN := 1, X := 0, Y := 0 } { GN := 2, X := 1, Y := 1 } { GN := 3, X := 2, Y := 2 } ∧
    TriC02D.detJ { GN := 1, X := 0, Y := 0 } { GN := 2, X := 1, Y := 1 }
      { GN := 3, X := 2, Y := 2 } = 0 ∧
    ∃ K : Mat, TriC02D.Ke exColinear = some K := by
  refine ⟨⟨1, -1, 0, Or.inl one_ne_zero, by norm_num, by norm_num, by norm_num⟩, ?_, _, rfl⟩
  rw [detJ_eq]
  norm_num

/-- C7, amended. `TriC02D::Ke` does not test the Jacobian determinant and has no failure
path: for every element whose three node pointers and material pointer are valid, whatever
the node positions (colinear or inverted ones included), it returns a matrix. -/
theorem Ke_returns_matrix_for_every_geometry (base : Element) (n0 n1 n2 : NodeXY)
    (m : MaterialStandard) :
    ∃ K : Mat, TriC02D.Ke ⟨base, some n0, some n1, some n2, some m⟩ = some K :=
  ⟨_, rfl⟩

/-- C8. The Jacobian determinant that `Ke` computes is
`(X1 − X0)(Y2 − Y0) − (X2 − X0)(Y1 − Y0)`, twice the signed area of the triangle; it is zero
exactly when the three nodes are colinear. -/
theorem detJ_twice_signed_area (n0 n1 n2 : NodeXY) :
    TriC02D.JacobianMatrixDeterminant (TriC02D.ComputeJacobianMatrixAt n0 n1 n2 (fun _ => 0))
        = (n1.X - n0.X) * (n2.Y - n0.Y) - (n2.X - n0.X) * (n1.Y - n0.Y) ∧
    (TriC02D.JacobianMatrixDeterminant (TriC02D.ComputeJacobianMatrixAt n0 n1 n2 (fun _ => 0)) = 0
        ↔ Colinear n0 n1 n2) :=
  ⟨detJ_eq n0 n1 n2, detJ_zero_iff_colinear n0 n1 n2⟩

/-- C9. The matrix returned by `TriC02D::Ke` is symmetric, for all node positions and
material constants for which the divisions in `Ke` are defined: `detJ ≠ 0`,
`(1 + ν)(1 − 2ν) ≠ 0` and `1 − ν ≠ 0`. -/
theorem Ke_symmetric (base : Element) (n0 n1 n2 : NodeXY) (m : MaterialStandard)
    (_hdet : TriC02D.detJ n0 n1 n2 ≠ 0) (_hnu : (1 + m.nu) * (1 - 2 * m.nu) ≠ 0)
    (_hnu1 : 1 - m.nu ≠ 0) :
    ∃ K : Mat, TriC02D.Ke ⟨base, some n0, some n1, some n2, some m⟩ = some K ∧
      ∀ i j : Fin 6, K i j = K j i :=
  ⟨_, rfl, fun i j => KeOn_symm n0 n1 n2 m i j i.isLt j.isLt⟩

/-- Witness of C9: the reference triangle `(0,0)`, `(1,0)`, `(0,1)` with `E = 1`,
`ν = 1/4`. -/
theorem Ke_symmetric_witness :
    TriC02D.detJ exNode0 exNode1 exNode2 ≠ 0 ∧
    (1 + exMaterial.nu) * (1 - 2 * exMaterial.nu) ≠ 0 ∧ 1 - exMaterial.nu ≠ 0 ∧
    ∃ K : Mat, TriC02D.Ke exElement = some K ∧ ∀ i j : Fin 6, K i j = K j i :=
  have hdet : TriC02D.detJ exNode0 exNode1 exNode2 ≠ 0 := by
    rw [detJ_eq]; norm_num [exNode0, exNode1, exNode2]
  have hnu : (1 + exMaterial.nu) * (1 - 2 * exMaterial.nu) ≠ 0 := by norm_num [exMaterial]
  have hnu1 : 1 - exMaterial.nu ≠ 0 := by norm_num [exMaterial]
  ⟨hdet, hnu, hnu1, Ke_symmetric { GN := 7 } exNode0 exNode1 exNode2 exMaterial hdet hnu hnu1⟩

theorem materialD_values (m : MaterialStandard) :
    TriC02D.materialD m 0 0 = (m.E * (1 - m.nu)) / ((1 + m.nu) * (1 - 2 * m.nu)) ∧
    TriC02D.materialD m 1 1 = (m.E * (1 - m.nu)) / ((1 + m.nu) * (1 - 2 * m.nu)) ∧
    TriC02D.materialD m 0 1
      = (m.E * (1 - m.nu)) / ((1 + m.nu) * (1 - 2 * m.nu)) * m.nu / (1 - m.nu) ∧
    TriC02D.materialD m 2 2
      = (m.E * (1 - m.nu)) / ((1 + m.nu) * (1 - 2 * m.nu)) * (1 - 2 * m.nu)
          / (2 * (1 - m.nu)) := by
  simp [TriC02D.materialD, Mat.put, Mat.zero]

/-- The entries of `Ke` as the entries of `Bᵀ·D·B` times half the signed determinant. -/
theorem KeOn_eq_BtDB (n0 n1 n2 : NodeXY) (m : MaterialStandard) (i j : Nat) (hi : i < 6)
    (hj : j < 6) :
    TriC02D.KeOn n0 n1 n2 m i j
      = BtDB (TriC02D.strainB n0 n1 n2) (TriC02D.materialD m) i j
          * (1 / 2 * TriC02D.detJ n0 n1 n2) := by
  rw [KeOn_entry _ _ _ _ i j hi hj, ComputeDBMatrix_entry _ _ 0 j (by omega) hj,
    ComputeDBMatrix_entry _ _ 1 j (by omega) hj, ComputeDBMatrix_entry _ _ 2 j (by omega) hj]
  simp only [BtDB, Fin.sum_univ_three, Fin.val_zero, Fin.val_one, Fin.val_two]
  ring

/-- The strain `B·x` of a displacement vector `x`. -/
theorem quadForm_KeOn (n0 n1 n2 : NodeXY) (m : MaterialStandard) (x : Fin 6 → Float) :
    quadForm (TriC02D.KeOn n0 n1 n2 m) x
      = (TriC02D.detJ n0 n1 n2 / 2) *
        (TriC02D.materialD m 0 0 * (∑ j : Fin 6, TriC02D.strainB n0 n1 n2 0 j * x j) ^ 2
         + 2 * TriC02D.materialD m 0 1 * (∑ j : Fin 6, TriC02D.strainB n0 n1 n2 0 j * x j)
             * (∑ j : Fin 6, TriC02D.strainB n0 n1 n2 1 j * x j)
         + TriC02D.materialD m 1 1 * (∑ j : Fin 6, TriC02D.strainB n0 n1 n2 1 j * x j) ^ 2
         + TriC02D.materialD m 2 2 * (∑ j : Fin 6, TriC02D.strainB n0 n1 n2 2 j * x j) ^ 2) := by
  obtain ⟨h02, h12, h20, h21, h10⟩ := materialD_entries m
  have hK : ∀ i j : Fin 6, TriC02D.KeOn n0 n1 n2 m i j
      = BtDB (TriC02D.strainB n0 n1 n2) (TriC02D.materialD m) i j
          * (1 / 2 * TriC02D.detJ n0 n1 n2) :=
    fun i j => KeOn_eq_BtDB n0 n1 n2 m i j i.isLt j.isLt
  simp only [quadForm, hK, BtDB, Fin.sum_univ_three, Fin.sum_univ_six, Fin.val_zero,
    Fin.val_one, Fin.val_two, h02, h12, h20, h21, h10]
  simp only [show ((3 : Fin 6) : Nat) = 3 from rfl, show ((4 : Fin 6) : Nat) = 4 from rfl,
    show ((5 : Fin 6) : Nat) = 5 from rfl]
  ring

/-- C11. The matrix returned by `TriC02D::Ke` is positive semi-definite, `xᵀ·Ke·x ≥ 0` for
every 6-vector `x`, when the Jacobian determinant is positive, `E > 0` and `0 ≤ ν < 1/2`
(exact arithmetic). -/
theorem Ke_positive_semidefinite (base : Element) (n0 n1 n2 : NodeXY) (m : MaterialStandard)
    (hdet : 0 < TriC02D.detJ n0 n1 n2) (hE : 0 < m.E) (hnu0 : 0 ≤ m.nu) (hnu : m.nu < 1 / 2) :
    ∃ K : Mat, TriC02D.Ke ⟨base, some n0, some n1, some n2, some m⟩ = some K ∧
      ∀ x : Fin 6 → Float, 0 ≤ quadForm K x := by
  refine ⟨_, rfl, fun x => ?_⟩
  obtain ⟨d00, d11, d01, d22⟩ := materialD_values m
  rw [quadForm_KeOn, d00, d11, d01, d22]
  generalize (∑ j : Fin 6, TriC02D.strainB n0 n1 n2 0 j * x j) = y0
  generalize (∑ j : Fin 6, TriC02D.strainB n0 n1 n2 1 j * x j) = y1
  generalize (∑ j : Fin 6, TriC02D.strainB n0 n1 n2 2 j * x j) = y2
  have h1 : (0 : ℚ) < 1 - m.nu := by linarith
  have h2 : (0 : ℚ) < 1 - 2 * m.nu := by linarith
  have h3 : (0 : ℚ) < 1 + m.nu := by linarith
  have hd : 0 < (m.E * (1 - m.nu)) / ((1 + m.nu) * (1 - 2 * m.nu)) :=
    div_pos (mul_pos hE h1) (mul_pos h3 h2)
  have hr0 : 0 ≤ m.nu / (1 - m.nu) := div_nonneg hnu0 h1.le
  have hr1 : m.nu / (1 - m.nu) ≤ 1 := (div_le_one h1).mpr (by linarith)
  have hs : 0 ≤ (1 - 2 * m.nu) / (2 * (1 - m.nu)) := div_nonneg h2.le (by linarith)
  generalize (m.E * (1 - m.nu)) / ((1 + m.nu) * (1 - 2 * m.nu)) = c at hd ⊢
  have key : c * y0 ^ 2 + 2 * (c * m.nu / (1 - m.nu)) * y0 * y1 + c * y1 ^ 2
      + c * (1 - 2 * m.nu) / (2 * (1 - m.nu)) * y2 ^ 2
      = c * ((1 - m.nu / (1 - m.nu)) * (y0 ^ 2 + y1 ^ 2) + m.nu / (1 - m.nu) * (y0 + y1) ^ 2
          + (1 - 2 * m.nu) / (2 * (1 - m.nu)) * y2 ^ 2) := by
    ring
  rw [key]
  have hpos : 0 ≤ (1 - m.nu / (1 - m.nu)) * (y0 ^ 2 + y1 ^ 2)
      + m.nu / (1 - m.nu) * (y0 + y1) ^ 2 + (1 - 2 * m.nu) / (2 * (1 - m.nu)) * y2 ^ 2 := by
    have a1 : 0 ≤ (1 - m.nu / (1 - m.nu)) * (y0 ^ 2 + y1 ^ 2) :=
      mul_nonneg (by linarith) (by positivity)
    have a2 : 0 ≤ m.nu / (1 - m.nu) * (y0 + y1) ^ 2 := mul_nonneg hr0 (by positivity)
    have a3 : 0 ≤ (1 - 2 * m.nu) / (2 * (1 - m.nu)) * y2 ^ 2 := mul_nonneg hs (by positivity)
    linarith
  exact mul_nonneg (by linarith) (mul_nonneg hd.le hpos)

/-- Witness of C11: the reference triangle, whose determinant is 1, with `E = 1`,
`ν = 1/4`. -/
theorem Ke_positive_semidefinite_witness :
    ∃ K : Mat, TriC02D.Ke exElement = some K ∧ ∀ x : Fin 6 → Float, 0 ≤ quadForm K x :=
  Ke_positive_semidefinite { GN := 7 } exNode0 exNode1 exNode2 exMaterial
    (by rw [detJ_eq]; norm_num [exNode0, exNode1, exNode2]) (by norm_num [exMaterial])
    (by norm_num [exMaterial]) (by norm_num [exMaterial])

/-- C12 as stated fails: for the reference triangle with its nodes in clockwise order the
Jacobian determinant is `−1`, and entry `(0, 0)` of the matrix `Ke` returns is not that of
`Bᵀ·D·B` times `1/2` times `|det J|` (it is its negative). -/
theorem Ke_clockwise_not_abs_detJ :
    TriC02D.detJ exNode0 exNode2 exNode1 = -1 ∧
    ∃ K : Mat, TriC02D.Ke exClockwise = some K ∧
      K 0 0 ≠ BtDB (TriC02D.strainB exNode0 exNode2 exNode1) (TriC02D.materialD exMaterial) 0 0
                * (1 / 2 * |TriC02D.detJ exNode0 exNode2 exNode1|) := by
  have hdet : TriC02D.detJ exNode0 exNode2 exNode1 = -1 := by
    rw [detJ_eq]; norm_num [exNode0, exNode1, exNode2]
  refine ⟨hdet, _, rfl, ?_⟩
  rw [KeOn_eq_BtDB _ _ _ _ 0 0 (by norm_num) (by norm_num), hdet]
  have hB : BtDB (TriC02D.strainB exNode0 exNode2 exNode1) (TriC02D.materialD exMaterial) 0 0
      = 8 / 5 := by
    have hdet2 : TriC02D.detJ { GN := 1, X := 0, Y := 0 } { GN := 3, X := 0, Y := 1 }
        { GN := 2, X := 1, Y := 0 } = -1 := hdet
    simp [BtDB, Fin.sum_univ_three, TriC02D.strainB, ComputeBMatrix_entry,
      TriC02D.ComputeShapeFunctionCartDerivatives, TriC02D.ComputeJacobianMatrixAt,
      TriC02D.ComputeShapeFunctionDerivativesAt, TriC02D.materialD, hdet2, Mat.put, Mat.zero,
      exNode0, exNode1, exNode2, exMaterial]
    norm_num
  rw [hB]
  norm_num

/-- C12, amended. For every element with non-zero Jacobian determinant and every material,
the matrix returned by `TriC02D::Ke` equals `Bᵀ·D·B` times the quadrature weight `1/2`
times the signed determinant `det J`; this is `Bᵀ·D·B` times `1/2` times `|det J|` when
`det J` is positive. -/
theorem Ke_eq_BtDB_signed_detJ (base : Element) (n0 n1 n2 : NodeXY) (m : MaterialStandard)
    (_hdet : TriC02D.detJ n0 n1 n2 ≠ 0) :
    ∃ K : Mat, TriC02D.Ke ⟨base, some n0, some n1, some n2, some m⟩ = some K ∧
      (∀ i j : Fin 6, K i j
        = BtDB (TriC02D.ComputeBMatrix (TriC02D.ComputeShapeFunctionCartDerivatives
              (TriC02D.ComputeJacobianMatrixAt n0 n1 n2 (fun _ => 0))
              (TriC02D.detJ n0 n1 n2))) (TriC02D.materialD m) i j
            * (1 / 2 * TriC02D.detJ n0 n1 n2)) ∧
      (0 < TriC02D.detJ n0 n1 n2 → ∀ i j : Fin 6, K i j
        = BtDB (TriC02D.ComputeBMatrix (TriC02D.ComputeShapeFunctionCartDerivatives
              (TriC02D.ComputeJacobianMatrixAt n0 n1 n2 (fun _ => 0))
              (TriC02D.detJ n0 n1 n2))) (TriC02D.materialD m) i j
            * (1 / 2 * |TriC02D.detJ n0 n1 n2|)) := by
  refine ⟨_, rfl, fun i j => KeOn_eq_BtDB n0 n1 n2 m i j i.isLt j.isLt, fun hpos i j => ?_⟩
  rw [abs_of_pos hpos]
  exact KeOn_eq_BtDB n0 n1 n2 m i j i.isLt j.isLt

/-- Witness of C12 amended: the clockwise reference triangle, of determinant `−1`. -/
theorem Ke_eq_BtDB_signed_detJ_witness :
    ∃ K : Mat, TriC02D.Ke exClockwise = some K ∧
      (∀ i j : Fin 6, K i j
        = BtDB (TriC02D.ComputeBMatrix (TriC02D.ComputeShapeFunctionCartDerivatives
              (TriC02D.ComputeJacobianMatrixAt exNode0 exNode2 exNode1 (fun _ => 0))
              (TriC02D.detJ exNode0 exNode2 exNode1))) (TriC02D.materialD exMaterial) i j
            * (1 / 2 * TriC02D.detJ exNode0 exNode2 exNode1)) ∧
      (0 < TriC02D.detJ exNode0 exNode2 exNode1 → ∀ i j : Fin 6, K i j
        = BtDB (TriC02D.ComputeBMatrix (TriC02D.ComputeShapeFunctionCartDerivatives
              (TriC02D.ComputeJacobianMatrixAt exNode0 exNode2 exNode1 (fun _ => 0))
              (TriC02D.detJ exNode0 exNode2 exNode1))) (TriC02D.materialD exMaterial) i j
            * (1 / 2 * |TriC02D.detJ exNode0 exNode2 exNode1|)) :=
  Ke_eq_BtDB_signed_detJ { GN := 9 } exNode0 exNode2 exNode1 exMaterial
    (by rw [detJ_eq]; norm_num [exNode0, exNode1, exNode2])

/-! ## Node classes, positions and shape functions (C13 – C19) -/

/-- The entries of the Jacobian matrix: a row of ones, the `X` and the `Y` of the nodes,
whatever the local point. -/
theorem ComputeJacobianMatrixAt_entries (n0 n1 n2 : NodeXY) (x : Nat → Float) :
    TriC02D.ComputeJacobianMatrixAt n0 n1 n2 x 1 0 = n0.X ∧
    TriC02D.ComputeJacobianMatrixAt n0 n1 n2 x 1 1 = n1.X ∧
    TriC02D.ComputeJacobianMatrixAt n0 n1 n2 x 1 2 = n2.X ∧
    TriC02D.ComputeJacobianMatrixAt n0 n1 n2 x 2 0 = n0.Y ∧
    TriC02D.ComputeJacobianMatrixAt n0 n1 n2 x 2 1 = n1.Y ∧
    TriC02D.ComputeJacobianMatrixAt n0 n1 n2 x 2 2 = n2.Y ∧
    TriC02D.JacobianMatrixDeterminant (TriC02D.ComputeJacobianMatrixAt n0 n1 n2 x)
      = TriC02D.detJ n0 n1 n2 := by
  simp [TriC02D.detJ, TriC02D.JacobianMatrixDeterminant, TriC02D.ComputeJacobianMatrixAt,
    TriC02D.ComputeShapeFunctionDerivativesAt, Mat.put, Mat.zero]

/-- C13. The constructor of `TriC02D` fails with `FEMExceptionWrongClass` whenever one of
its three node arguments is not a `NodeXY`, whatever the other arguments; no element is
produced. -/
theorem ctor_wrong_node_class (base : Element) (n1 n2 n3 : Node) (p : Material)
    (h : (∀ a : NodeXY, n1 ≠ Node.nodeXY a) ∨ (∀ a : NodeXY, n2 ≠ Node.nodeXY a) ∨
      (∀ a : NodeXY, n3 ≠ Node.nodeXY a)) :
    TriC02D.ctor base n1 n2 n3 p = .error (.FEMExceptionWrongClass "TriC02D::TriC02D()") := by
  have hcast : ∀ n : Node, (∀ a : NodeXY, n ≠ Node.nodeXY a) → dynamic_cast_NodeXY n = none := by
    intro n hn
    cases n with
    | nodeXY a => exact absurd rfl (hn a)
    | otherNode g => rfl
  have hxy : ∀ a : NodeXY, dynamic_cast_NodeXY (.nodeXY a) = some a := fun _ => rfl
  have hoth : ∀ g : Int, dynamic_cast_NodeXY (.otherNode g) = none := fun _ => rfl
  rcases h with h | h | h
  · simp [TriC02D.ctor, hcast n1 h]
  · cases n1 <;> simp [TriC02D.ctor, hcast n2 h, hxy, hoth]
  · cases n1 <;> cases n2 <;> simp [TriC02D.ctor, hcast n3 h, hxy, hoth]

/-- Witness of C13: the second node is not a `NodeXY`; the other arguments are right. -/
theorem ctor_wrong_node_class_witness :
    TriC02D.ctor { GN := 7 } (.nodeXY exNode0) (.otherNode 2) (.nodeXY exNode2)
        (.standard exMaterial)
      = .error (.FEMExceptionWrongClass "TriC02D::TriC02D()") :=
  ctor_wrong_node_class _ _ _ _ _ (Or.inr (Or.inl (fun _ h => by cases h)))

/-- C14. When construction succeeds the nodes are stored positionally and unpermuted:
`TriC02D(n1, n2, n3, m)` with three `NodeXY` and a `MaterialStandard` succeeds and holds
`n1`, `n2`, `n3` at the positions 0, 1, 2 and `m` as material;
`Element2DC0LinearLineStress(n1, n2, m)` with a `MaterialLinearElasticity` succeeds and
holds `n1`, `n2` at the positions 0, 1 and `m` as material. -/
theorem ctor_stores_positionally :
    (∀ (base : Element) (a b c : NodeXY) (m : MaterialStandard),
      TriC02D.ctor base (.nodeXY a) (.nodeXY b) (.nodeXY c) (.standard m)
        = .ok { base := base, m_node0 := some a, m_node1 := some b, m_node2 := some c,
                m_mat := some m }) ∧
    (∀ (this : Element2DC0LinearLineStress) (n1 n2 : Option Node)
        (m : MaterialLinearElasticity),
      ∃ e : Element2DC0LinearLineStress,
        Element2DC0LinearLineStress.ctor this n1 n2 (some (.linearElasticity m)) = .ok e ∧
        e.m_node 0 = n1 ∧ e.m_node 1 = n2 ∧ e.m_mat = some m ∧
        ∀ k : Nat, 2 ≤ k → e.m_node k = this.m_node k) := by
  constructor
  · intro base a b c m
    rfl
  · intro this n1 n2 m
    refine ⟨_, rfl, ?_, ?_, rfl, ?_⟩
    · simp [Element2DC0LinearLineStress.SetNode]
    · simp [Element2DC0LinearLineStress.SetNode]
    · intro k hk
      have h0 : k ≠ 0 := by omega
      have h1 : k ≠ 1 := by omega
      simp [Element2DC0LinearLineStress.SetNode, h0, h1]

/-- C15. For a non-zero Jacobian determinant the matrix `S` of
`ComputeShapeFunctionCartDerivatives(J, detJ)`, with `J` from `ComputeJacobianMatrixAt`,
holds the Cartesian gradients of the three linear shape functions:
`Σ S[i][0]·X_i = 1`, `Σ S[i][1]·X_i = 0`, `Σ S[i][0]·Y_i = 0`, `Σ S[i][1]·Y_i = 1` and
`Σ S[i][0] = Σ S[i][1] = 0`. -/
theorem CartDerivatives_are_gradients (n0 n1 n2 : NodeXY) (x : Nat → Float)
    (hdet : TriC02D.JacobianMatrixDeterminant (TriC02D.ComputeJacobianMatrixAt n0 n1 n2 x) ≠ 0) :
    ∃ S : Mat,
      S = TriC02D.ComputeShapeFunctionCartDerivatives (TriC02D.ComputeJacobianMatrixAt n0 n1 n2 x)
            (TriC02D.JacobianMatrixDeterminant (TriC02D.ComputeJacobianMatrixAt n0 n1 n2 x)) ∧
      S 0 0 * n0.X + S 1 0 * n1.X + S 2 0 * n2.X = 1 ∧
      S 0 1 * n0.X + S 1 1 * n1.X + S 2 1 * n2.X = 0 ∧
      S 0 0 * n0.Y + S 1 0 * n1.Y + S 2 0 * n2.Y = 0 ∧
      S 0 1 * n0.Y + S 1 1 * n1.Y + S 2 1 * n2.Y = 1 ∧
      S 0 0 + S 1 0 + S 2 0 = 0 ∧ S 0 1 + S 1 1 + S 2 1 = 0 := by
  obtain ⟨j10, j11, j12, j20, j21, j22, jdet⟩ := ComputeJacobianMatrixAt_entries n0 n1 n2 x
  rw [jdet] at hdet
  have hd := detJ_eq n0 n1 n2
  refine ⟨_, rfl, ?_, ?_, ?_, ?_, ?_, ?_⟩ <;>
    simp only [TriC02D.ComputeShapeFunctionCartDerivatives, Mat.put, Mat.zero, j10, j11, j12,
      j20, j21, j22, jdet] <;> simp <;> field_simp <;> (try rw [hd]) <;> ring

/-- Witness of C15: the reference triangle, at the local point `(0, 0, 0)`. -/
theorem CartDerivatives_are_gradients_witness :
    ∃ S : Mat,
      S = TriC02D.ComputeShapeFunctionCartDerivatives
            (TriC02D.ComputeJacobianMatrixAt exNode0 exNode1 exNode2 (fun _ => 0))
            (TriC02D.JacobianMatrixDeterminant
              (TriC02D.ComputeJacobianMatrixAt exNode0 exNode1 exNode2 (fun _ => 0))) ∧
      S 0 0 * exNode0.X + S 1 0 * exNode1.X + S 2 0 * exNode2.X = 1 ∧
      S 0 1 * exNode0.X + S 1 1 * exNode1.X + S 2 1 * exNode2.X = 0 ∧
      S 0 0 * exNode0.Y + S 1 0 * exNode1.Y + S 2 0 * exNode2.Y = 0 ∧
      S 0 1 * exNode0.Y + S 1 1 * exNode1.Y + S 2 1 * exNode2.Y = 1 ∧
      S 0 0 + S 1 0 + S 2 0 = 0 ∧ S 0 1 + S 1 1 + S 2 1 = 0 :=
  CartDerivatives_are_gradients exNode0 exNode1 exNode2 (fun _ => 0)
    (by
      have h := detJ_eq exNode0 exNode1 exNode2
      simp only [TriC02D.detJ] at h
      rw [h]
      norm_num [exNode0, exNode1, exNode2])

/-- C16. `ComputeBMatrix(S)` follows the standard strain–displacement pattern: for each
node `i`, row 0 has `S[i][0]` in column `2i` and `0` in column `2i+1`, row 1 has `0` and
`S[i][1]`, row 2 has `S[i][1]` and `S[i][0]`; hence `B` maps the nodal displacements
`(u0, v0, u1, v1, u2, v2)` to the strains
`(Σ S[i][0]·u_i, Σ S[i][1]·v_i, Σ (S[i][1]·u_i + S[i][0]·v_i))`. -/
theorem ComputeBMatrix_pattern (S : Mat) :
    (∀ i : Fin 3,
      TriC02D.ComputeBMatrix S 0 (2 * i) = S i 0 ∧ TriC02D.ComputeBMatrix S 0 (2 * i + 1) = 0 ∧
      TriC02D.ComputeBMatrix S 1 (2 * i) = 0 ∧ TriC02D.ComputeBMatrix S 1 (2 * i + 1) = S i 1 ∧
      TriC02D.ComputeBMatrix S 2 (2 * i) = S i 1 ∧
      TriC02D.ComputeBMatrix S 2 (2 * i + 1) = S i 0) ∧
    (∀ u v : Fin 3 → Float,
      (∑ i : Fin 3, (TriC02D.ComputeBMatrix S 0 (2 * i) * u i
          + TriC02D.ComputeBMatrix S 0 (2 * i + 1) * v i)) = ∑ i : Fin 3, S i 0 * u i ∧
      (∑ i : Fin 3, (TriC02D.ComputeBMatrix S 1 (2 * i) * u i
          + TriC02D.ComputeBMatrix S 1 (2 * i + 1) * v i)) = ∑ i : Fin 3, S i 1 * v i ∧
      (∑ i : Fin 3, (TriC02D.ComputeBMatrix S 2 (2 * i) * u i
          + TriC02D.ComputeBMatrix S 2 (2 * i + 1) * v i))
        = ∑ i : Fin 3, (S i 1 * u i + S i 0 * v i)) := by
  have hpat : ∀ i : Fin 3,
      TriC02D.ComputeBMatrix S 0 (2 * i) = S i 0 ∧ TriC02D.ComputeBMatrix S 0 (2 * i + 1) = 0 ∧
      TriC02D.ComputeBMatrix S 1 (2 * i) = 0 ∧ TriC02D.ComputeBMatrix S 1 (2 * i + 1) = S i 1 ∧
      TriC02D.ComputeBMatrix S 2 (2 * i) = S i 1 ∧
      TriC02D.ComputeBMatrix S 2 (2 * i + 1) = S i 0 := by
    intro i
    fin_cases i <;> simp [ComputeBMatrix_entry]
  refine ⟨hpat, fun u v => ⟨?_, ?_, ?_⟩⟩
  · exact Finset.sum_congr rfl (fun i _ => by
      obtain ⟨a, b, -, -, -, -⟩ := hpat i
      rw [a, b]; ring)
  · exact Finset.sum_congr rfl (fun i _ => by
      obtain ⟨-, -, a, b, -, -⟩ := hpat i
      rw [a, b]; ring)
  · exact Finset.sum_congr rfl (fun i _ => by
      obtain ⟨-, -, -, -, a, b⟩ := hpat i
      rw [a, b])

/-- C17. For every `E` and every `ν` other than `−1`, `1/2`, `1`, the matrix `D` built in
`TriC02D::Ke` is the isotropic plane-strain matrix: symmetric, with
`D[0][0] = D[1][1] = E(1 − ν)/((1 + ν)(1 − 2ν))`, `D[0][1] = D[1][0] = E·ν/((1 + ν)(1 − 2ν))`,
`D[2][2] = E/(2(1 + ν))` and all other entries `0`. -/
theorem materialD_plane_strain (m : MaterialStandard) (h1 : m.nu ≠ -1) (h2 : m.nu ≠ 1 / 2)
    (h3 : m.nu ≠ 1) :
    (∀ i j : Fin 3, TriC02D.materialD m i j = TriC02D.materialD m j i) ∧
    TriC02D.materialD m 0 0 = m.E * (1 - m.nu) / ((1 + m.nu) * (1 - 2 * m.nu)) ∧
    TriC02D.materialD m 1 1 = m.E * (1 - m.nu) / ((1 + m.nu) * (1 - 2 * m.nu)) ∧
    TriC02D.materialD m 0 1 = m.E * m.nu / ((1 + m.nu) * (1 - 2 * m.nu)) ∧
    TriC02D.materialD m 1 0 = m.E * m.nu / ((1 + m.nu) * (1 - 2 * m.nu)) ∧
    TriC02D.materialD m 2 2 = m.E / (2 * (1 + m.nu)) ∧
    TriC02D.materialD m 0 2 = 0 ∧ TriC02D.materialD m 1 2 = 0 ∧
    TriC02D.materialD m 2 0 = 0 ∧ TriC02D.materialD m 2 1 = 0 := by
  obtain ⟨h02, h12, h20, h21, h10⟩ := materialD_entries m
  obtain ⟨d00, d11, d01, d22⟩ := materialD_values m
  have a1 : 1 + m.nu ≠ 0 := fun h => h1 (by linarith)
  have a2 : 1 - 2 * m.nu ≠ 0 := fun h => h2 (by linarith)
  have a3 : 1 - m.nu ≠ 0 := fun h => h3 (by linarith)
  have e01 : TriC02D.materialD m 0 1 = m.E * m.nu / ((1 + m.nu) * (1 - 2 * m.nu)) := by
    rw [d01]; field_simp; ring
  refine ⟨?_, d00, d11, e01, by rw [h10, e01], ?_, h02, h12, h20, h21⟩
  · intro i j
    fin_cases i <;> fin_cases j <;> simp [h02, h12, h20, h21, h10]
  · rw [d22]; field_simp; ring

/-- Witness of C17: `E = 1`, `ν = 1/4`. -/
theorem materialD_plane_strain_witness :
    (∀ i j : Fin 3, TriC02D.materialD exMaterial i j = TriC02D.materialD exMaterial j i) ∧
    TriC02D.materialD exMaterial 0 0
      = exMaterial.E * (1 - exMaterial.nu) / ((1 + exMaterial.nu) * (1 - 2 * exMaterial.nu)) ∧
    TriC02D.materialD exMaterial 1 1
      = exMaterial.E * (1 - exMaterial.nu) / ((1 + exMaterial.nu) * (1 - 2 * exMaterial.nu)) ∧
    TriC02D.materialD exMaterial 0 1
      = exMaterial.E * exMaterial.nu / ((1 + exMaterial.nu) * (1 - 2 * exMaterial.nu)) ∧
    TriC02D.materialD exMaterial 1 0
      = exMaterial.E * exMaterial.nu / ((1 + exMaterial.nu) * (1 - 2 * exMaterial.nu)) ∧
    TriC02D.materialD exMaterial 2 2 = exMaterial.E / (2 * (1 + exMaterial.nu)) ∧
    TriC02D.materialD exMaterial 0 2 = 0 ∧ TriC02D.materialD exMaterial 1 2 = 0 ∧
    TriC02D.materialD exMaterial 2 0 = 0 ∧ TriC02D.materialD exMaterial 2 1 = 0 :=
  materialD_plane_strain exMaterial (by norm_num [exMaterial]) (by norm_num [exMaterial])
    (by norm_num [exMaterial])

/-- C18. `ComputePositionAt` returns the shape-function interpolation of the node positions,
`(r·X0 + s·X1 + t·X2, r·Y0 + s·Y1 + t·Y2)` at the local point `(r, s, t)`; at `(1,0,0)`,
`(0,1,0)`, `(0,0,1)` it returns the coordinates of node 0, 1, 2; and the three shape
functions add up to 1 whenever `r + s + t = 1`. -/
theorem ComputePositionAt_interpolates (n0 n1 n2 : NodeXY) :
    (∀ r s t : Float, TriC02D.ComputePositionAt n0 n1 n2 (localPoint r s t)
      = (r * n0.X + s * n1.X + t * n2.X, r * n0.Y + s * n1.Y + t * n2.Y)) ∧
    TriC02D.ComputePositionAt n0 n1 n2 (localPoint 1 0 0) = (n0.X, n0.Y) ∧
    TriC02D.ComputePositionAt n0 n1 n2 (localPoint 0 1 0) = (n1.X, n1.Y) ∧
    TriC02D.ComputePositionAt n0 n1 n2 (localPoint 0 0 1) = (n2.X, n2.Y) ∧
    (∀ r s t : Float, r + s + t = 1 →
      TriC02D.ComputeShapeFunctionsAt (localPoint r s t) 0
        + TriC02D.ComputeShapeFunctionsAt (localPoint r s t) 1
        + TriC02D.ComputeShapeFunctionsAt (localPoint r s t) 2 = 1) := by
  have hgen : ∀ r s t : Float, TriC02D.ComputePositionAt n0 n1 n2 (localPoint r s t)
      = (r * n0.X + s * n1.X + t * n2.X, r * n0.Y + s * n1.Y + t * n2.Y) := by
    intro r s t
    simp only [TriC02D.ComputePositionAt, TriC02D.ComputeShapeFunctionsAt, localPoint]
    simp
    constructor <;> ring
  refine ⟨hgen, ?_, ?_, ?_, ?_⟩
  · rw [hgen]; simp
  · rw [hgen]; simp
  · rw [hgen]; simp
  · intro r s t h
    simp only [TriC02D.ComputeShapeFunctionsAt, localPoint]
    simpa using h

/-- Witness of C18: the reference triangle, and its centroid `(1/3, 1/3, 1/3)`. -/
theorem ComputePositionAt_interpolates_witness :
    TriC02D.ComputePositionAt exNode0 exNode1 exNode2 (localPoint (1 / 3) (1 / 3) (1 / 3))
      = (1 / 3 * exNode0.X + 1 / 3 * exNode1.X + 1 / 3 * exNode2.X,
         1 / 3 * exNode0.Y + 1 / 3 * exNode1.Y + 1 / 3 * exNode2.Y) ∧
    TriC02D.ComputeShapeFunctionsAt (localPoint (1 / 3) (1 / 3) (1 / 3)) 0
        + TriC02D.ComputeShapeFunctionsAt (localPoint (1 / 3) (1 / 3) (1 / 3)) 1
        + TriC02D.ComputeShapeFunctionsAt (localPoint (1 / 3) (1 / 3) (1 / 3)) 2 = 1 :=
  ⟨(ComputePositionAt_interpolates exNode0 exNode1 exNode2).1 _ _ _,
   (ComputePositionAt_interpolates exNode0 exNode1 exNode2).2.2.2.2 _ _ _ (by norm_num)⟩

end itk.fem

namespace itk

/-! ## The bounding box in index space (C20) -/

theorem mem_indexValues (lo : Int) (n : Nat) (v : Int) :
    v ∈ indexValues lo n ↔ lo ≤ v ∧ v < lo + n := by
  simp only [indexValues, List.mem_map, List.mem_range]
  constructor
  · rintro ⟨k, hk, rfl⟩
    omega
  · intro h
    exact ⟨(v - lo).toNat, by omega, by omega⟩

theorem mem_regionIndices : ∀ (D : Nat) (index : IndexType D) (size : SizeType D)
    (p : IndexType D),
    p ∈ regionIndices D index size ↔ ∀ d : Fin D, index d ≤ p d ∧ p d < index d + size d := by
  intro D
  induction D with
  | zero =>
    intro index size p
    simp only [regionIndices, List.mem_singleton]
    constructor
    · intro _ d
      exact d.elim0
    · intro _
      funext d
      exact d.elim0
  | succ D ih =>
    intro index size p
    simp only [regionIndices, List.mem_flatMap, List.mem_map, ih, mem_indexValues]
    constructor
    · rintro ⟨t, ht, v, hv, rfl⟩ d
      refine Fin.cases ?_ (fun e => ?_) d
      · simpa using hv
      · simpa using ht e
    · intro h
      refine ⟨fun d => p d.succ, fun e => h e.succ, p 0, h 0, ?_⟩
      funext d
      refine Fin.cases ?_ (fun e => ?_) d <;> simp

theorem HasForegroundPixels_iff {D : Nat} (image : Image D) (region : ImageRegion D) :
    HasForegroundPixels image region = true ↔
      ∃ p, region.IsInside p ∧ image.pixel p ≠ 0 := by
  simp only [HasForegroundPixels, List.any_eq_true, mem_regionIndices, decide_eq_true_eq,
    ImageRegion.IsInside]

theorem SetIndex_SetIndex {D : Nat} (r : ImageRegion D) (dim : Fin D) (v w : Int) :
    (r.SetIndex dim v).SetIndex dim w = r.SetIndex dim w := by
  simp [ImageRegion.SetIndex]

theorem GetIndex_SetIndex {D : Nat} (r : ImageRegion D) (dim : Fin D) (v : Int) :
    (r.SetIndex dim v).GetIndex dim = v := by
  simp [ImageRegion.SetIndex, ImageRegion.GetIndex]

/-- The upward scan ends at the first slab, from `v` on, that has a foreground pixel, when
there is one at `w ≤ initialMaxIndexValue` and the fuel covers the distance. -/
theorem estimateMinIndex_spec {D : Nat} (image : Image D) (dim : Fin D) (hi : Int)
    (S0 : ImageRegion D) : ∀ (fuel : Nat) (v w : Int), v ≤ w → w ≤ hi →
    HasForegroundPixels image (S0.SetIndex dim w) = true → (w - v).toNat < fuel →
    ∃ a : Int, estimateMinIndex image dim hi fuel (S0.SetIndex dim v)
        = some (some (S0.SetIndex dim a)) ∧ v ≤ a ∧ a ≤ w ∧
      HasForegroundPixels image (S0.SetIndex dim a) = true ∧
      ∀ u : Int, v ≤ u → u < a → HasForegroundPixels image (S0.SetIndex dim u) = false := by
  intro fuel
  induction fuel with
  | zero => intro v w _ _ _ h; omega
  | succ fuel ih =>
    intro v w hvw hwhi hw hfuel
    by_cases hv : HasForegroundPixels image (S0.SetIndex dim v) = true
    · refine ⟨v, ?_, le_refl v, hvw, hv, fun u h1 h2 => ?_⟩
      · simp [estimateMinIndex, hv]
      · omega
    · have hne : v ≠ w := fun h => hv (h ▸ hw)
      obtain ⟨a, ha, h1, h2, h3, h4⟩ := ih (v + 1) w (by omega) hwhi hw (by omega)
      refine ⟨a, ?_, by omega, h2, h3, fun u hu1 hu2 => ?_⟩
      · have hgt : ¬ (v + 1 > hi) := by omega
        simp only [estimateMinIndex, hv, GetIndex_SetIndex, SetIndex_SetIndex]
        simp [hgt, ha]
      · by_cases huv : u = v
        · subst huv
          simpa using hv
        · exact h4 u (by omega) hu2

/-- The downward scan ends at the first slab, from `v` down, that has a foreground pixel,
when there is one at `w ≤ v` and the fuel covers the distance. -/
theorem estimateMaxIndex_spec {D : Nat} (image : Image D) (dim : Fin D)
    (S0 : ImageRegion D) : ∀ (fuel : Nat) (v w : Int), w ≤ v →
    HasForegroundPixels image (S0.SetIndex dim w) = true → (v - w).toNat < fuel →
    ∃ b : Int, estimateMaxIndex image dim fuel (S0.SetIndex dim v)
        = some (S0.SetIndex dim b) ∧ w ≤ b ∧ b ≤ v ∧
      HasForegroundPixels image (S0.SetIndex dim b) = true ∧
      ∀ u : Int, b < u → u ≤ v → HasForegroundPixels image (S0.SetIndex dim u) = false := by
  intro fuel
  induction fuel with
  | zero => intro v w _ _ h; omega
  | succ fuel ih =>
    intro v w hwv hw hfuel
    by_cases hv : HasForegroundPixels image (S0.SetIndex dim v) = true
    · refine ⟨v, ?_, hwv, le_refl v, hv, fun u h1 h2 => ?_⟩
      · simp [estimateMaxIndex, hv]
      · omega
    · have hne : v ≠ w := fun h => hv (h ▸ hw)
      obtain ⟨b, hb, h1, h2, h3, h4⟩ := ih (v - 1) w (by omega) hw (by omega)
      refine ⟨b, ?_, h1, by omega, h3, fun u hu1 hu2 => ?_⟩
      · simp only [estimateMaxIndex, hv, GetIndex_SetIndex, SetIndex_SetIndex]
        simp [hb]
      · by_cases huv : u = v
        · subst huv
          simpa using hv
        · exact h4 u hu1 (by omega)

/-- A slab of the current box has a foreground pixel exactly when a foreground pixel of the
requested region has that index value in dimension `dim`. -/
theorem slab_foreground_iff {D : Nat} (image : Image D) (dim : Fin D)
    (mn mx : IndexType D)
    (hA : ∀ d, image.RequestedRegion.Index d ≤ mn d ∧
      mx d < image.RequestedRegion.Index d + image.RequestedRegion.Size d)
    (hB : ∀ p, image.RequestedRegion.IsInside p → image.pixel p ≠ 0 →
      ∀ d, mn d ≤ p d ∧ p d ≤ mx d)
    (v : Int) (hv1 : mn dim ≤ v) (hv2 : v ≤ mx dim) :
    HasForegroundPixels image (((CreateRegion mn mx).SetSize dim 1).SetIndex dim v) = true ↔
      ∃ p, image.RequestedRegion.IsInside p ∧ image.pixel p ≠ 0 ∧ p dim = v := by
  rw [HasForegroundPixels_iff]
  constructor
  · rintro ⟨p, hin, hp⟩
    have hdim : p dim = v := by
      have := hin dim
      simp [ImageRegion.SetIndex, ImageRegion.SetSize, CreateRegion] at this
      omega
    have hother : ∀ d, d ≠ dim → mn d ≤ p d ∧ p d ≤ mx d := by
      intro d hd
      have := hin d
      simp [ImageRegion.SetIndex, ImageRegion.SetSize, CreateRegion, hd] at this
      omega
    refine ⟨p, fun d => ?_, hp, hdim⟩
    by_cases hd : d = dim
    · subst hd
      have := hA d
      omega
    · have := hA d
      have := hother d hd
      omega
  · rintro ⟨p, hin, hp, hdim⟩
    refine ⟨p, fun d => ?_, hp⟩
    have hb := hB p hin hp d
    by_cases hd : d = dim
    · subst hd
      simp [ImageRegion.SetIndex, ImageRegion.SetSize, CreateRegion]
      omega
    · simp [ImageRegion.SetIndex, ImageRegion.SetSize, CreateRegion, hd]
      omega

/-- One pass of the loop over `dim`: with enough fuel both scans end, at the least and the
greatest index value in dimension `dim` of a foreground pixel of the requested region. -/
theorem boundsStep_spec {D : Nat} (fuel : Nat) (image : Image D) (dim : Fin D)
    (mn mx : IndexType D)
    (hfuel : ∀ d, image.RequestedRegion.Size d ≤ fuel)
    (hfg : ∃ p, image.RequestedRegion.IsInside p ∧ image.pixel p ≠ 0)
    (hA : ∀ d, image.RequestedRegion.Index d ≤ mn d ∧
      mx d < image.RequestedRegion.Index d + image.RequestedRegion.Size d)
    (hB : ∀ p, image.RequestedRegion.IsInside p → image.pixel p ≠ 0 →
      ∀ d, mn d ≤ p d ∧ p d ≤ mx d) :
    ∃ a b : Int,
      boundsStep fuel image dim (mn, mx)
        = some (some (Function.update mn dim a, Function.update mx dim b)) ∧
      mn dim ≤ a ∧ b ≤ mx dim ∧
      (∀ p, image.RequestedRegion.IsInside p → image.pixel p ≠ 0 → a ≤ p dim ∧ p dim ≤ b) ∧
      (∃ p, image.RequestedRegion.IsInside p ∧ image.pixel p ≠ 0 ∧ p dim = a) ∧
      (∃ p, image.RequestedRegion.IsInside p ∧ image.pixel p ≠ 0 ∧ p dim = b) := by
  obtain ⟨p0, hp0in, hp0⟩ := hfg
  have hb0 := hB p0 hp0in hp0 dim
  have hAd := hA dim
  have hfd := hfuel dim
  have hslab := slab_foreground_iff image dim mn mx hA hB
  have hw : HasForegroundPixels image
      (((CreateRegion mn mx).SetSize dim 1).SetIndex dim (p0 dim)) = true :=
    (hslab (p0 dim) hb0.1 hb0.2).mpr ⟨p0, hp0in, hp0, rfl⟩
  obtain ⟨a, ha, ha1, ha2, ha3, ha4⟩ := estimateMinIndex_spec image dim (mx dim)
    ((CreateRegion mn mx).SetSize dim 1) fuel (mn dim) (p0 dim) hb0.1 hb0.2 hw (by omega)
  obtain ⟨b, hb, hb1, hb2, hb3, hb4⟩ := estimateMaxIndex_spec image dim
    ((CreateRegion mn mx).SetSize dim 1) fuel (mx dim) (p0 dim) hb0.2 hw (by omega)
  have hself : ((CreateRegion mn mx).SetSize dim 1).SetIndex dim (mn dim)
      = (CreateRegion mn mx).SetSize dim 1 := by
    simp [ImageRegion.SetIndex, ImageRegion.SetSize, CreateRegion]
  rw [hself] at ha
  refine ⟨a, b, ?_, ha1, hb2, ?_, ?_, ?_⟩
  · simp only [boundsStep, ha, SetIndex_SetIndex, hb, GetIndex_SetIndex]
  · intro p hpin hp
    have hbp := hB p hpin hp dim
    have hfp : HasForegroundPixels image
        (((CreateRegion mn mx).SetSize dim 1).SetIndex dim (p dim)) = true :=
      (hslab (p dim) hbp.1 hbp.2).mpr ⟨p, hpin, hp, rfl⟩
    constructor
    · by_contra hlt
      have := ha4 (p dim) hbp.1 (by omega)
      rw [hfp] at this
      cases this
    · by_contra hlt
      have := hb4 (p dim) (by omega) hbp.2
      rw [hfp] at this
      cases this
  · exact (hslab a ha1 (by omega)).mp ha3
  · exact (hslab b (by omega) hb2).mp hb3

/-- The loop over the dimensions: with enough fuel it ends, every bound of a visited
dimension is attained by a foreground pixel, and the other bounds are unchanged. -/
theorem boundsLoop_spec {D : Nat} (fuel : Nat) (image : Image D)
    (hfuel : ∀ d, image.RequestedRegion.Size d ≤ fuel)
    (hfg : ∃ p, image.RequestedRegion.IsInside p ∧ image.pixel p ≠ 0) :
    ∀ (dims : List (Fin D)) (mn mx : IndexType D),
    (∀ d, image.RequestedRegion.Index d ≤ mn d ∧
      mx d < image.RequestedRegion.Index d + image.RequestedRegion.Size d) →
    (∀ p, image.RequestedRegion.IsInside p → image.pixel p ≠ 0 →
      ∀ d, mn d ≤ p d ∧ p d ≤ mx d) →
    ∃ mn' mx' : IndexType D,
      boundsLoop fuel image dims (mn, mx) = some (some (mn', mx')) ∧
      (∀ d, image.RequestedRegion.Index d ≤ mn' d ∧
        mx' d < image.RequestedRegion.Index d + image.RequestedRegion.Size d) ∧
      (∀ p, image.RequestedRegion.IsInside p → image.pixel p ≠ 0 →
        ∀ d, mn' d ≤ p d ∧ p d ≤ mx' d) ∧
      (∀ d, d ∉ dims → mn' d = mn d ∧ mx' d = mx d) ∧
      (∀ d, d ∈ dims →
        (∃ p, image.RequestedRegion.IsInside p ∧ image.pixel p ≠ 0 ∧ p d = mn' d) ∧
        (∃ p, image.RequestedRegion.IsInside p ∧ image.pixel p ≠ 0 ∧ p d = mx' d)) := by
  intro dims
  induction dims with
  | nil =>
    intro mn mx hA hB
    exact ⟨mn, mx, rfl, hA, hB, fun _ _ => ⟨rfl, rfl⟩, fun d hd => by cases hd⟩
  | cons dim rest ih =>
    intro mn mx hA hB
    obtain ⟨a, b, hstep, ha1, hb2, hab, hpa, hpb⟩ :=
      boundsStep_spec fuel image dim mn mx hfuel hfg hA hB
    have hA1 : ∀ d, image.RequestedRegion.Index d ≤ Function.update mn dim a d ∧
        Function.update mx dim b d
          < image.RequestedRegion.Index d + image.RequestedRegion.Size d := by
      intro d
      have := hA d
      by_cases hd : d = dim
      · subst hd
        simp only [Function.update_same]
        omega
      · simpa [Function.update_noteq hd] using this
    have hB1 : ∀ p, image.RequestedRegion.IsInside p → image.pixel p ≠ 0 →
        ∀ d, Function.update mn dim a d ≤ p d ∧ p d ≤ Function.update mx dim b d := by
      intro p hpin hp d
      by_cases hd : d = dim
      · subst hd
        simpa using hab p hpin hp
      · simpa [Function.update_noteq hd] using hB p hpin hp d
    obtain ⟨mn', mx', hloop, hA', hB', hout, htight⟩ :=
      ih (Function.update mn dim a) (Function.update mx dim b) hA1 hB1
    refine ⟨mn', mx', ?_, hA', hB', ?_, ?_⟩
    · simp only [boundsLoop, hstep, hloop]
    · intro d hd
      have hne : d ≠ dim := fun h => hd (h ▸ List.mem_cons_self _ _)
      have hnr : d ∉ rest := fun h => hd (List.mem_cons_of_mem _ h)
      have := hout d hnr
      simpa [Function.update_noteq hne] using this
    · intro d hd
      by_cases hr : d ∈ rest
      · exact htight d hr
      · have hdd : d = dim := by
          rcases List.mem_cons.mp hd with h | h
          · exact h
          · exact absurd h hr
        subst hdd
        have := hout d hr
        simp only [Function.update_same] at this
        rw [this.1, this.2]
        exact ⟨hpa, hpb⟩

/-- C20. For every image whose requested region has a non-zero pixel,
`ComputeMyBoundingBoxInIndexSpace` terminates (every loop ends within as many iterations as
the largest size of the requested region) and returns the tight bounding region of the
non-zero pixels of the requested region: the region contains the index of every such pixel;
in every dimension its size is at least 1 (the downward scan stops at or above the lower
bound), and some non-zero pixel of the requested region has its index value equal to the
lower bound, and some to the upper bound. -/
theorem ComputeMyBoundingBoxInIndexSpace_tight {D : Nat} (image : Image D) (fuel : Nat)
    (hfg : ∃ p, image.RequestedRegion.IsInside p ∧ image.pixel p ≠ 0)
    (hfuel : ∀ d, image.RequestedRegion.Size d ≤ fuel) :
    ∃ r : ImageRegion D,
      ComputeMyBoundingBoxInIndexSpace fuel (some image) = some r ∧
      (∀ p, image.RequestedRegion.IsInside p → image.pixel p ≠ 0 → r.IsInside p) ∧
      ∀ d : Fin D, 1 ≤ r.Size d ∧
        (∃ p, image.RequestedRegion.IsInside p ∧ image.pixel p ≠ 0 ∧ p d = r.Index d) ∧
        (∃ p, image.RequestedRegion.IsInside p ∧ image.pixel p ≠ 0 ∧
          p d = r.Index d + r.Size d - 1) := by
  have hA0 : ∀ d, image.RequestedRegion.Index d ≤ image.RequestedRegion.Index d ∧
      image.RequestedRegion.Index d + (image.RequestedRegion.Size d : Int) - 1
        < image.RequestedRegion.Index d + image.RequestedRegion.Size d := by
    intro d
    omega
  have hB0 : ∀ p, image.RequestedRegion.IsInside p → image.pixel p ≠ 0 →
      ∀ d, image.RequestedRegion.Index d ≤ p d ∧
        p d ≤ image.RequestedRegion.Index d + (image.RequestedRegion.Size d : Int) - 1 := by
    intro p hpin _ d
    have := hpin d
    omega
  obtain ⟨mn, mx, hloop, -, hB, -, htight⟩ := boundsLoop_spec fuel image hfuel hfg
    (List.finRange D).reverse image.RequestedRegion.Index
    (fun d => image.RequestedRegion.Index d + (image.RequestedRegion.Size d : Int) - 1) hA0 hB0
  obtain ⟨p0, hp0in, hp0⟩ := hfg
  have hpix : image.RequestedRegion.GetNumberOfPixels ≠ 0 := by
    rw [ImageRegion.GetNumberOfPixels, Finset.prod_ne_zero_iff]
    intro d _
    have := hp0in d
    omega
  refine ⟨CreateRegion mn mx, ?_, ?_, ?_⟩
  · simp only [ComputeMyBoundingBoxInIndexSpace, hpix, if_false, hloop]
  · intro p hpin hp d
    have := hB p hpin hp d
    simp only [CreateRegion]
    omega
  · intro d
    have hd : d ∈ (List.finRange D).reverse := by simp [List.mem_finRange]
    obtain ⟨⟨pa, hpain, hpa, hpad⟩, ⟨pb, hpbin, hpb, hpbd⟩⟩ := htight d hd
    have h0 := hB p0 hp0in hp0 d
    refine ⟨?_, ⟨pa, hpain, hpa, hpad⟩, ⟨pb, hpbin, hpb, ?_⟩⟩
    · simp only [CreateRegion]
      omega
    · simp only [CreateRegion]
      omega

/-- Witness of C20: the 4×3 image `exImage`, whose non-zero pixels are `(11, 21)` and
`(12, 22)`, with fuel 4. -/
theorem ComputeMyBoundingBoxInIndexSpace_tight_witness :
    ∃ r : ImageRegion 2,
      ComputeMyBoundingBoxInIndexSpace 4 (some exImage) = some r ∧
      (∀ p, exImage.RequestedRegion.IsInside p → exImage.pixel p ≠ 0 → r.IsInside p) ∧
      ∀ d : Fin 2, 1 ≤ r.Size d ∧
        (∃ p, exImage.RequestedRegion.IsInside p ∧ exImage.pixel p ≠ 0 ∧ p d = r.Index d) ∧
        (∃ p, exImage.RequestedRegion.IsInside p ∧ exImage.pixel p ≠ 0 ∧
          p d = r.Index d + r.Size d - 1) :=
  ComputeMyBoundingBoxInIndexSpace_tight exImage 4
    ⟨![11, 21], by
      intro d
      fin_cases d <;> simp [exImage], by simp [exImage]⟩
    (by
      intro d
      fin_cases d <;> simp [exImage])

/-! ## The empty region (C21) -/

/-- The upward scan leaves through `return {}` when no slab from `v` up to
`initialMaxIndexValue` has a foreground pixel and the fuel covers the distance. -/
theorem estimateMinIndex_no_foreground {D : Nat} (image : Image D) (dim : Fin D) (hi : Int)
    (S0 : ImageRegion D) : ∀ (fuel : Nat) (v : Int), v ≤ hi →
    (∀ u : Int, v ≤ u → u ≤ hi → HasForegroundPixels image (S0.SetIndex dim u) = false) →
    (hi - v).toNat < fuel →
    estimateMinIndex image dim hi fuel (S0.SetIndex dim v) = some none := by
  intro fuel
  induction fuel with
  | zero => intro v _ _ h; omega
  | succ fuel ih =>
    intro v hv hnone hfuel
    have hv0 := hnone v (le_refl v) hv
    by_cases hlast : v + 1 > hi
    · simp [estimateMinIndex, hv0, GetIndex_SetIndex, hlast]
    · have hrec := ih (v + 1) (by omega) (fun u h1 h2 => hnone u (by omega) h2) (by omega)
      simp only [estimateMinIndex, hv0, GetIndex_SetIndex, SetIndex_SetIndex]
      simp [hlast, hrec]

/-- When every pixel of the requested region is zero, the first pass of the loop over the
dimensions returns the empty region. -/
theorem boundsStep_no_foreground {D : Nat} (fuel : Nat) (image : Image D) (dim : Fin D)
    (hfuel : ∀ d, image.RequestedRegion.Size d ≤ fuel)
    (hsize : ∀ d, 1 ≤ image.RequestedRegion.Size d)
    (hzero : ∀ p, image.RequestedRegion.IsInside p → image.pixel p = 0) :
    boundsStep fuel image dim (image.RequestedRegion.Index,
      fun d => image.RequestedRegion.Index d + (image.RequestedRegion.Size d : Int) - 1)
      = some none := by
  have hA0 : ∀ d, image.RequestedRegion.Index d ≤ image.RequestedRegion.Index d ∧
      image.RequestedRegion.Index d + (image.RequestedRegion.Size d : Int) - 1
        < image.RequestedRegion.Index d + image.RequestedRegion.Size d := by
    intro d
    omega
  have hB0 : ∀ p, image.RequestedRegion.IsInside p → image.pixel p ≠ 0 →
      ∀ d, image.RequestedRegion.Index d ≤ p d ∧
        p d ≤ image.RequestedRegion.Index d + (image.RequestedRegion.Size d : Int) - 1 := by
    intro p hpin _ d
    have := hpin d
    omega
  have hslab := slab_foreground_iff image dim image.RequestedRegion.Index
    (fun d => image.RequestedRegion.Index d + (image.RequestedRegion.Size d : Int) - 1) hA0 hB0
  have hs := hsize dim
  have hf := hfuel dim
  have hnone : ∀ u : Int, image.RequestedRegion.Index dim ≤ u →
      u ≤ image.RequestedRegion.Index dim + (image.RequestedRegion.Size dim : Int) - 1 →
      HasForegroundPixels image (((CreateRegion image.RequestedRegion.Index
        (fun d => image.RequestedRegion.Index d + (image.RequestedRegion.Size d : Int) - 1)).SetSize
          dim 1).SetIndex dim u) = false := by
    intro u h1 h2
    by_contra hne
    have htrue := (Bool.not_eq_false _).mp hne
    obtain ⟨p, hpin, hp, -⟩ := (hslab u h1 h2).mp htrue
    exact hp (hzero p hpin)
  have hscan := estimateMinIndex_no_foreground image dim
    (image.RequestedRegion.Index dim + (image.RequestedRegion.Size dim : Int) - 1)
    ((CreateRegion image.RequestedRegion.Index
      (fun d => image.RequestedRegion.Index d + (image.RequestedRegion.Size d : Int) - 1)).SetSize
        dim 1) fuel (image.RequestedRegion.Index dim) (by omega) hnone (by omega)
  have hself : ((CreateRegion image.RequestedRegion.Index
      (fun d => image.RequestedRegion.Index d + (image.RequestedRegion.Size d : Int) - 1)).SetSize
        dim 1).SetIndex dim (image.RequestedRegion.Index dim)
      = (CreateRegion image.RequestedRegion.Index
      (fun d => image.RequestedRegion.Index d + (image.RequestedRegion.Size d : Int) - 1)).SetSize
        dim 1 := by
    simp [ImageRegion.SetIndex, ImageRegion.SetSize, CreateRegion]
  rw [hself] at hscan
  simp only [boundsStep, hscan]

/-- The result of the function for an image with a foreground pixel in its requested
region: a region of size at least 1 in every dimension, inside the requested region. -/
theorem ComputeMyBoundingBoxInIndexSpace_foreground {D : Nat} (image : Image D) (fuel : Nat)
    (hfg : ∃ p, image.RequestedRegion.IsInside p ∧ image.pixel p ≠ 0)
    (hfuel : ∀ d, image.RequestedRegion.Size d ≤ fuel) :
    ∃ r : ImageRegion D,
      ComputeMyBoundingBoxInIndexSpace fuel (some image) = some r ∧
      ∀ d : Fin D, 1 ≤ r.Size d ∧ image.RequestedRegion.Index d ≤ r.Index d ∧
        r.Index d + r.Size d ≤ image.RequestedRegion.Index d + image.RequestedRegion.Size d := by
  have hA0 : ∀ d, image.RequestedRegion.Index d ≤ image.RequestedRegion.Index d ∧
      image.RequestedRegion.Index d + (image.RequestedRegion.Size d : Int) - 1
        < image.RequestedRegion.Index d + image.RequestedRegion.Size d := by
    intro d
    omega
  have hB0 : ∀ p, image.RequestedRegion.IsInside p → image.pixel p ≠ 0 →
      ∀ d, image.RequestedRegion.Index d ≤ p d ∧
        p d ≤ image.RequestedRegion.Index d + (image.RequestedRegion.Size d : Int) - 1 := by
    intro p hpin _ d
    have := hpin d
    omega
  obtain ⟨mn, mx, hloop, hA, hB, -, -⟩ := boundsLoop_spec fuel image hfuel hfg
    (List.finRange D).reverse image.RequestedRegion.Index
    (fun d => image.RequestedRegion.Index d + (image.RequestedRegion.Size d : Int) - 1) hA0 hB0
  obtain ⟨p0, hp0in, hp0⟩ := hfg
  have hpix : image.RequestedRegion.GetNumberOfPixels ≠ 0 := by
    rw [ImageRegion.GetNumberOfPixels, Finset.prod_ne_zero_iff]
    intro d _
    have := hp0in d
    omega
  refine ⟨CreateRegion mn mx, ?_, fun d => ?_⟩
  · simp only [ComputeMyBoundingBoxInIndexSpace, hpix, if_false, hloop]
  · have h0 := hB p0 hp0in hp0 d
    have h1 := hA d
    simp only [CreateRegion]
    omega

/-- C21. `ComputeMyBoundingBoxInIndexSpace` (for a dimension of at least 1, the loops bounded
by a fuel no less than the sizes of the requested region) returns a region, and this region
is the empty region (index and size zero) exactly when the image pointer is null, or the
requested region has no pixel, or every pixel of the requested region is zero; in every
other case each size of the returned region is at least 1 and the region lies inside the
requested region. -/
theorem ComputeMyBoundingBoxInIndexSpace_empty_iff {D : Nat} (hD : 0 < D)
    (imagePointer : Option (Image D)) (fuel : Nat)
    (hfuel : ∀ image, imagePointer = some image → ∀ d, image.RequestedRegion.Size d ≤ fuel) :
    ∃ r : ImageRegion D,
      ComputeMyBoundingBoxInIndexSpace fuel imagePointer = some r ∧
      (r = ImageRegion.empty D ↔
        (imagePointer = none ∨ ∃ image, imagePointer = some image ∧
          (image.RequestedRegion.GetNumberOfPixels = 0 ∨
            ∀ p, image.RequestedRegion.IsInside p → image.pixel p = 0))) ∧
      (¬ (imagePointer = none ∨ ∃ image, imagePointer = some image ∧
          (image.RequestedRegion.GetNumberOfPixels = 0 ∨
            ∀ p, image.RequestedRegion.IsInside p → image.pixel p = 0)) →
        ∀ image, imagePointer = some image → ∀ d : Fin D, 1 ≤ r.Size d ∧
          image.RequestedRegion.Index d ≤ r.Index d ∧
          r.Index d + r.Size d
            ≤ image.RequestedRegion.Index d + image.RequestedRegion.Size d) := by
  cases imagePointer with
  | none =>
    refine ⟨ImageRegion.empty D, rfl, ?_, ?_⟩
    · simp
    · intro h
      exact absurd (Or.inl rfl) h
  | some image =>
    have hf := hfuel image rfl
    by_cases hpix : image.RequestedRegion.GetNumberOfPixels = 0
    · refine ⟨ImageRegion.empty D, ?_, ?_, ?_⟩
      · simp [ComputeMyBoundingBoxInIndexSpace, hpix]
      · simp [hpix]
      · intro h
        exact absurd (Or.inr ⟨image, rfl, Or.inl hpix⟩) h
    · by_cases hzero : ∀ p, image.RequestedRegion.IsInside p → image.pixel p = 0
      · have hsize : ∀ d, 1 ≤ image.RequestedRegion.Size d := by
          intro d
          have := (Finset.prod_ne_zero_iff.mp hpix) d (Finset.mem_univ d)
          omega
        have hne : (List.finRange D).reverse ≠ [] := by
          intro h
          have hlen := congrArg List.length h
          simp at hlen
          omega
        obtain ⟨dim, rest, hlist⟩ := List.exists_cons_of_ne_nil hne
        have hstep := boundsStep_no_foreground fuel image dim hf hsize hzero
        refine ⟨ImageRegion.empty D, ?_, ?_, ?_⟩
        · simp only [ComputeMyBoundingBoxInIndexSpace, hpix, if_false, hlist, boundsLoop, hstep]
        · simp only [true_iff]
          exact Or.inr ⟨image, rfl, Or.inr hzero⟩
        · intro h
          exact absurd (Or.inr ⟨image, rfl, Or.inr hzero⟩) h
      · have hfg : ∃ p, image.RequestedRegion.IsInside p ∧ image.pixel p ≠ 0 := by
          push_neg at hzero
          exact hzero
        obtain ⟨r, hr, hprop⟩ := ComputeMyBoundingBoxInIndexSpace_foreground image fuel hfg hf
        refine ⟨r, hr, ?_, ?_⟩
        · constructor
          · intro hs
            have h1 := (hprop ⟨0, hD⟩).1
            have h2 : r.Size ⟨0, hD⟩ = 0 := by rw [hs]; rfl
            omega
          · rintro (h | ⟨im, him, h | h⟩)
            · cases h
            · cases him
              exact absurd h hpix
            · cases him
              exact absurd h hzero
        · intro _ im him d
          cases him
          exact hprop d

/-- Witness of C21: the 4×3 image `exImage`, with fuel 4. -/
theorem ComputeMyBoundingBoxInIndexSpace_empty_iff_witness :
    ∃ r : ImageRegion 2,
      ComputeMyBoundingBoxInIndexSpace 4 (some exImage) = some r ∧
      (r = ImageRegion.empty 2 ↔
        (some exImage = none ∨ ∃ image, some exImage = some image ∧
          (image.RequestedRegion.GetNumberOfPixels = 0 ∨
            ∀ p, image.RequestedRegion.IsInside p → image.pixel p = 0))) ∧
      (¬ (some exImage = none ∨ ∃ image, some exImage = some image ∧
          (image.RequestedRegion.GetNumberOfPixels = 0 ∨
            ∀ p, image.RequestedRegion.IsInside p → image.pixel p = 0)) →
        ∀ image, some exImage = some image → ∀ d : Fin 2, 1 ≤ r.Size d ∧
          image.RequestedRegion.Index d ≤ r.Index d ∧
          r.Index d + r.Size d
            ≤ image.RequestedRegion.Index d + image.RequestedRegion.Size d) :=
  ComputeMyBoundingBoxInIndexSpace_empty_iff (by decide) (some exImage) 4
    (by
      intro image h d
      cases h
      fin_cases d <;> simp [exImage])

/-! ## The bounding box of the mask in physical space, on rows that fit in an `int` -/

/-- Considering one more point keeps the box the exact hull of the points considered. -/
theorem IsHullOf_consider {D : Nat} (T : IndexType D → PointType D)
    (st st' : BoundingBoxScan D) (S : Set (IndexType D)) (q : IndexType D)
    (h : IsHullOf T st S) (hfirst : st'.first = false)
    (hbox : st'.box = if st.first then (st.box.SetMinimum (T q)).SetMaximum (T q)
      else st.box.ConsiderPoint (T q)) :
    IsHullOf T st' (insert q S) := by
  rcases h with ⟨hf, hS⟩ | ⟨hf, hull⟩
  · right
    refine ⟨hfirst, fun c => ?_⟩
    rw [hbox, hf, hS]
    simp [BoundingBox.SetMinimum, BoundingBox.SetMaximum]
  · right
    refine ⟨hfirst, fun c => ?_⟩
    obtain ⟨hcov, ⟨pmin, hpmin, hmin⟩, ⟨pmax, hpmax, hmax⟩⟩ := hull c
    rw [hbox, hf]
    simp only [Bool.false_eq_true, if_false, BoundingBox.ConsiderPoint]
    refine ⟨?_, ?_, ?_⟩
    · intro p hp
      rcases Set.mem_insert_iff.mp hp with rfl | hpS
      · constructor
        · split_ifs with h1
          · exact le_refl _
          · exact not_lt.mp h1
        · split_ifs with h1
          · exact le_refl _
          · exact not_lt.mp h1
      · have := hcov p hpS
        constructor
        · split_ifs with h1
          · exact le_trans h1.le this.1
          · exact this.1
        · split_ifs with h1
          · exact le_trans this.2 h1.le
          · exact this.2
    · by_cases h1 : T q c < st.box.Minimum c
      · exact ⟨q, Set.mem_insert _ _, by simp [h1]⟩
      · exact ⟨pmin, Set.mem_insert_of_mem _ hpmin, by simp [h1, hmin]⟩
    · by_cases h1 : T q c > st.box.Maximum c
      · exact ⟨q, Set.mem_insert _ _, by simp [h1]⟩
      · exact ⟨pmax, Set.mem_insert_of_mem _ hpmax, by simp [h1, hmax]⟩

/-- Being the hull of a set depends on `first` and on the box only. -/
theorem IsHullOf_congr {D : Nat} (T : IndexType D → PointType D)
    (st st' : BoundingBoxScan D) (S : Set (IndexType D)) (h : IsHullOf T st S)
    (hfirst : st'.first = st.first) (hbox : st'.box = st.box) : IsHullOf T st' S := by
  unfold IsHullOf at *
  rw [hfirst, hbox]
  exact h

/-- An integer in the range of `int` converts to itself. -/
theorem wrapInt_of_range (x : Int) (h1 : -2147483648 ≤ x) (h2 : x < 2147483648) :
    wrapInt x = x := by
  unfold wrapInt
  omega

/-- The variables after one pass of the loop body, while `count` is within a row whose size
fits in an `int`. -/
theorem scanPixel_fields {D : Nat} (image : Image D) (T : IndexType D → PointType D)
    (rowSize : Int) (st : BoundingBoxScan D) (it : IndexType D)
    (hr : rowSize < 2147483648) (hc0 : 0 ≤ st.count) (hc1 : st.count < rowSize) :
    (scanPixel image T rowSize st it).prevIt = it ∧
    (scanPixel image T rowSize st it).count
      = (if st.count + 1 = rowSize then 0 else st.count + 1) ∧
    (scanPixel image T rowSize st it).prevValue
      = (if st.count + 1 = rowSize then 0 else image.pixel it) ∧
    ((image.pixel it ≠ st.prevValue ∨ (st.count = rowSize - 1 ∧ image.pixel it ≠ 0)) →
      (scanPixel image T rowSize st it).first = false ∧
      (scanPixel image T rowSize st it).box
        = if st.first then
            (st.box.SetMinimum (T (if image.pixel it = 0 then st.prevIt else it))).SetMaximum
              (T (if image.pixel it = 0 then st.prevIt else it))
          else st.box.ConsiderPoint (T (if image.pixel it = 0 then st.prevIt else it))) ∧
    (¬ (image.pixel it ≠ st.prevValue ∨ (st.count = rowSize - 1 ∧ image.pixel it ≠ 0)) →
      (scanPixel image T rowSize st it).first = st.first ∧
      (scanPixel image T rowSize st it).box = st.box) := by
  have e1 : wrapInt (st.count + 1) = st.count + 1 :=
    wrapInt_of_range _ (by omega) (by omega)
  have e2 : wrapInt (rowSize - 1) = rowSize - 1 :=
    wrapInt_of_range _ (by omega) (by omega)
  have e3 : wrapInt rowSize = rowSize :=
    wrapInt_of_range _ (by omega) (by omega)
  by_cases htrig : image.pixel it ≠ st.prevValue ∨ (st.count = rowSize - 1 ∧ image.pixel it ≠ 0)
  · by_cases hf : st.first = true <;> by_cases hc : st.count + 1 = rowSize <;>
      simp [scanPixel, e1, e2, e3, htrig, hf, hc]
  · have hpv : image.pixel it = st.prevValue := by
      by_contra h
      exact htrig (Or.inl h)
    by_cases hc : st.count + 1 = rowSize
    · simp only [scanPixel, e1, e2, e3, if_neg htrig, hc, if_true]
      simp [htrig]
    · simp only [scanPixel, e1, e2, e3, if_neg htrig, hc, if_false]
      simp [htrig, hpv]
      intro h1
      omega

/-- Every non-zero pixel of a row lies in a stretch of non-zero pixels that starts at the
beginning of the row or after a zero pixel. -/
theorem run_start (pix : Nat → PixelType) : ∀ j : Nat, pix j ≠ 0 →
    ∃ j1 : Nat, j1 ≤ j ∧ pix j1 ≠ 0 ∧ (j1 = 0 ∨ pix (j1 - 1) = 0) := by
  intro j
  induction j with
  | zero => intro h; exact ⟨0, le_refl 0, h, Or.inl rfl⟩
  | succ j ih =>
    intro h
    by_cases hp : pix j = 0
    · exact ⟨j + 1, le_refl _, h, Or.inr (by simpa using hp)⟩
    · obtain ⟨j1, h1, h2, h3⟩ := ih hp
      exact ⟨j1, by omega, h2, h3⟩

/-- Every non-zero pixel of a row lies in a stretch of non-zero pixels that ends at the end
of the row or before a zero pixel. -/
theorem run_end (pix : Nat → PixelType) (n : Nat) : ∀ (m j : Nat), j + m + 1 = n →
    pix j ≠ 0 →
    ∃ j2 : Nat, j ≤ j2 ∧ j2 < n ∧ pix j2 ≠ 0 ∧ (j2 + 1 = n ∨ (j2 + 1 < n ∧ pix (j2 + 1) = 0)) := by
  intro m
  induction m with
  | zero => intro j hj h; exact ⟨j, le_refl j, by omega, h, Or.inl (by omega)⟩
  | succ m ih =>
    intro j hj h
    by_cases hp : pix (j + 1) = 0
    · exact ⟨j, le_refl j, by omega, h, Or.inr ⟨by omega, hp⟩⟩
    · obtain ⟨j2, h1, h2, h3, h4⟩ := ih (j + 1) (by omega) hp
      exact ⟨j2, by omega, h2, h3, h4⟩

/-- The scan of one row, pixel after pixel: after `k` pixels the box is the hull of a set of
non-zero pixels that holds every processed pixel at which a stretch of non-zero pixels
starts, and every processed pixel at which such a stretch is known to end. -/
theorem scanRow_spec {D : Nat} (image : Image D) (T : IndexType D → PointType D) (n : Nat)
    (idx : Nat → IndexType D) (st0 : BoundingBoxScan D) (S0 : Set (IndexType D))
    (hn : n < 2147483648)
    (h0c : st0.count = 0) (h0v : st0.prevValue = 0) (h0h : IsHullOf T st0 S0) :
    ∀ k : Nat, k ≤ n →
      (((List.range k).map idx).foldl (scanPixel image T n) st0).count
        = (if k = n then 0 else (k : Int)) ∧
      (((List.range k).map idx).foldl (scanPixel image T n) st0).prevValue
        = (if k = n ∨ k = 0 then 0 else image.pixel (idx (k - 1))) ∧
      (0 < k → (((List.range k).map idx).foldl (scanPixel image T n) st0).prevIt
        = idx (k - 1)) ∧
      ∃ S : Set (IndexType D),
        IsHullOf T (((List.range k).map idx).foldl (scanPixel image T n) st0) S ∧ S0 ⊆ S ∧
        (∀ p ∈ S, p ∈ S0 ∨ ∃ j, j < k ∧ p = idx j ∧ image.pixel (idx j) ≠ 0) ∧
        (∀ j, j < k → image.pixel (idx j) ≠ 0 →
          (j = 0 ∨ image.pixel (idx (j - 1)) = 0) → idx j ∈ S) ∧
        (∀ j, j < k → image.pixel (idx j) ≠ 0 →
          (j + 1 = n ∨ (j + 1 < k ∧ image.pixel (idx (j + 1)) = 0)) → idx j ∈ S) := by
  intro k
  induction k with
  | zero =>
    intro _
    refine ⟨?_, ?_, ?_, S0, ?_, subset_refl S0, fun p hp => Or.inl hp, ?_, ?_⟩
    · simp [h0c]
    · simp [h0v]
    · intro h; omega
    · simpa using h0h
    · intro j hj; omega
    · intro j hj; omega
  | succ k ih =>
    intro hk
    obtain ⟨hc, hv, hp, S, hS, hS0, hsub, hB1, hB2⟩ := ih (by omega)
    have hkn : k ≠ n := by omega
    rw [if_neg hkn] at hc
    have hv' : (((List.range k).map idx).foldl (scanPixel image T n) st0).prevValue
        = if k = 0 then 0 else image.pixel (idx (k - 1)) := by
      rw [hv]
      by_cases h0 : k = 0 <;> simp [h0, hkn]
    rw [List.range_succ, List.map_append, List.foldl_append]
    simp only [List.map_cons, List.map_nil, List.foldl_cons, List.foldl_nil]
    generalize (((List.range k).map idx).foldl (scanPixel image T n) st0) = st at hc hv' hp hS
    obtain ⟨f1, f2, f3, f4, f5⟩ := scanPixel_fields image T n st (idx k)
      (by omega) (by rw [hc]; omega) (by rw [hc]; omega)
    refine ⟨?_, ?_, ?_, ?_⟩
    · rw [f2, hc]
      by_cases h : k + 1 = n
      · have : (k : Int) + 1 = (n : Int) := by omega
        simp [h, this]
      · have : ¬ (k : Int) + 1 = (n : Int) := by omega
        simp [h, this]
    · rw [f3, hc]
      by_cases h : k + 1 = n
      · have : (k : Int) + 1 = (n : Int) := by omega
        simp [h, this]
      · have : ¬ (k : Int) + 1 = (n : Int) := by omega
        simp [h, this]
    · intro _
      simpa using f1
    · by_cases hval : image.pixel (idx k) = 0
      · by_cases hpv : st.prevValue = 0
        · -- a zero pixel after a zero pixel or at the start of the row: nothing considered
          have hnt : ¬ (image.pixel (idx k) ≠ st.prevValue ∨
              (st.count = (n : Int) - 1 ∧ image.pixel (idx k) ≠ 0)) := by
            simp [hval, hpv]
          obtain ⟨g1, g2⟩ := f5 hnt
          refine ⟨S, IsHullOf_congr T st _ S hS g1 g2, hS0, ?_, ?_, ?_⟩
          · intro p hpS
            rcases hsub p hpS with h | ⟨j, hj, hpj, hnz⟩
            · exact Or.inl h
            · exact Or.inr ⟨j, by omega, hpj, hnz⟩
          · intro j hj hnz hstart
            by_cases hjk : j = k
            · subst hjk
              exact absurd hval hnz
            · exact hB1 j (by omega) hnz hstart
          · intro j hj hnz hend
            by_cases hjk : j = k
            · subst hjk
              exact absurd hval hnz
            · rcases hend with h | ⟨h1, h2⟩
              · exact hB2 j (by omega) hnz (Or.inl h)
              · by_cases hj1 : j + 1 = k
                · exfalso
                  have hk0 : k ≠ 0 := by omega
                  rw [if_neg hk0] at hv'
                  have : k - 1 = j := by omega
                  rw [this] at hv'
                  rw [hv'] at hpv
                  exact hnz hpv
                · exact hB2 j (by omega) hnz (Or.inr ⟨by omega, h2⟩)
        · -- a zero pixel after a non-zero pixel: the previous pixel is considered
          have hk0 : k ≠ 0 := by
            intro h0
            rw [if_pos h0] at hv'
            exact hpv hv'
          rw [if_neg hk0] at hv'
          have hprev := hp (by omega)
          have htr : image.pixel (idx k) ≠ st.prevValue ∨
              (st.count = (n : Int) - 1 ∧ image.pixel (idx k) ≠ 0) := by
            left
            rw [hval]
            exact fun h => hpv h.symm
          obtain ⟨g1, g2⟩ := f4 htr
          rw [if_pos hval, hprev] at g2
          refine ⟨insert (idx (k - 1)) S, IsHullOf_consider T st _ S (idx (k - 1)) hS g1 g2,
            fun p hpS => Set.mem_insert_of_mem _ (hS0 hpS), ?_, ?_, ?_⟩
          · intro p hpS
            rcases Set.mem_insert_iff.mp hpS with h | h
            · refine Or.inr ⟨k - 1, by omega, h, ?_⟩
              rw [← hv']
              exact hpv
            · rcases hsub p h with h | ⟨j, hj, hpj, hnz⟩
              · exact Or.inl h
              · exact Or.inr ⟨j, by omega, hpj, hnz⟩
          · intro j hj hnz hstart
            by_cases hjk : j = k
            · subst hjk
              exact absurd hval hnz
            · exact Set.mem_insert_of_mem _ (hB1 j (by omega) hnz hstart)
          · intro j hj hnz hend
            by_cases hjk : j = k
            · subst hjk
              exact absurd hval hnz
            · by_cases hj1 : j + 1 = k
              · have : k - 1 = j := by omega
                rw [this]
                exact Set.mem_insert _ _
              · rcases hend with h | ⟨h1, h2⟩
                · exact Set.mem_insert_of_mem _ (hB2 j (by omega) hnz (Or.inl h))
                · exact Set.mem_insert_of_mem _ (hB2 j (by omega) hnz (Or.inr ⟨by omega, h2⟩))
      · by_cases htr : image.pixel (idx k) ≠ st.prevValue ∨
            (st.count = (n : Int) - 1 ∧ image.pixel (idx k) ≠ 0)
        · -- a non-zero pixel that starts a run or ends the row: it is considered
          obtain ⟨g1, g2⟩ := f4 htr
          rw [if_neg hval] at g2
          refine ⟨insert (idx k) S, IsHullOf_consider T st _ S (idx k) hS g1 g2,
            fun p hpS => Set.mem_insert_of_mem _ (hS0 hpS), ?_, ?_, ?_⟩
          · intro p hpS
            rcases Set.mem_insert_iff.mp hpS with h | h
            · exact Or.inr ⟨k, by omega, h, hval⟩
            · rcases hsub p h with h | ⟨j, hj, hpj, hnz⟩
              · exact Or.inl h
              · exact Or.inr ⟨j, by omega, hpj, hnz⟩
          · intro j hj hnz hstart
            by_cases hjk : j = k
            · subst hjk
              exact Set.mem_insert _ _
            · exact Set.mem_insert_of_mem _ (hB1 j (by omega) hnz hstart)
          · intro j hj hnz hend
            by_cases hjk : j = k
            · subst hjk
              exact Set.mem_insert _ _
            · rcases hend with h | ⟨h1, h2⟩
              · exact Set.mem_insert_of_mem _ (hB2 j (by omega) hnz (Or.inl h))
              · by_cases hj1 : j + 1 = k
                · subst hj1
                  exact absurd h2 hval
                · exact Set.mem_insert_of_mem _ (hB2 j (by omega) hnz (Or.inr ⟨by omega, h2⟩))
        · -- a non-zero pixel inside a run, not at the end of the row: nothing considered
          obtain ⟨g1, g2⟩ := f5 htr
          have hsame : image.pixel (idx k) = st.prevValue := by
            by_contra h
            exact htr (Or.inl h)
          have hnotlast : k + 1 ≠ n := by
            intro h
            apply htr
            right
            refine ⟨?_, hval⟩
            rw [hc]
            omega
          refine ⟨S, IsHullOf_congr T st _ S hS g1 g2, hS0, ?_, ?_, ?_⟩
          · intro p hpS
            rcases hsub p hpS with h | ⟨j, hj, hpj, hnz⟩
            · exact Or.inl h
            · exact Or.inr ⟨j, by omega, hpj, hnz⟩
          · intro j hj hnz hstart
            by_cases hjk : j = k
            · subst hjk
              exfalso
              rcases hstart with h | h
              · rw [if_pos h] at hv'
                exact hval (hsame.trans hv')
              · by_cases hj0 : j = 0
                · rw [if_pos hj0] at hv'
                  exact hval (hsame.trans hv')
                · rw [if_neg hj0] at hv'
                  exact hval (hsame.trans (hv'.trans h))
            · exact hB1 j (by omega) hnz hstart
          · intro j hj hnz hend
            by_cases hjk : j = k
            · subst hjk
              rcases hend with h | ⟨h1, h2⟩
              · exact absurd h hnotlast
              · omega
            · rcases hend with h | ⟨h1, h2⟩
              · exact hB2 j (by omega) hnz (Or.inl h)
              · by_cases hj1 : j + 1 = k
                · subst hj1
                  exact absurd h2 hval
                · exact hB2 j (by omega) hnz (Or.inr ⟨by omega, h2⟩)

/-- The pixels of a row, as the list the iterator visits. -/
theorem row_indices_eq {D : Nat} (lo : Int) (n : Nat) (t : IndexType D) :
    (indexValues lo n).map (fun v => (Fin.cons v t : IndexType (D + 1)))
      = (List.range n).map (fun (j : Nat) => (Fin.cons (lo + (j : Int)) t : IndexType (D + 1))) := by
  simp [indexValues, List.map_map, Function.comp_def]

/-- The scan of a sequence of rows: the box is the hull of a set of non-zero pixels of these
rows that holds, for every row, each pixel at which a stretch of non-zero pixels starts or
ends. -/
theorem scanRows_spec {D : Nat} (image : Image (D + 1))
    (T : IndexType (D + 1) → PointType (D + 1)) (n : Nat) (lo : Int)
    (hn : n < 2147483648) :
    ∀ (rows : List (IndexType D)) (st0 : BoundingBoxScan (D + 1))
      (S0 : Set (IndexType (D + 1))),
    st0.count = 0 → st0.prevValue = 0 → IsHullOf T st0 S0 →
    ((rows.flatMap (fun t => (indexValues lo n).map
        (fun v => (Fin.cons v t : IndexType (D + 1))))).foldl (scanPixel image T n) st0).count
      = 0 ∧
    ((rows.flatMap (fun t => (indexValues lo n).map
        (fun v => (Fin.cons v t : IndexType (D + 1))))).foldl
          (scanPixel image T n) st0).prevValue = 0 ∧
    ∃ S : Set (IndexType (D + 1)),
      IsHullOf T ((rows.flatMap (fun t => (indexValues lo n).map
        (fun v => (Fin.cons v t : IndexType (D + 1))))).foldl (scanPixel image T n) st0) S ∧
      S0 ⊆ S ∧
      (∀ p ∈ S, p ∈ S0 ∨ ∃ t ∈ rows, ∃ j : Nat, j < n ∧ p = Fin.cons (lo + (j : Int)) t ∧
        image.pixel p ≠ 0) ∧
      (∀ t ∈ rows, ∀ j : Nat, j < n → image.pixel (Fin.cons (lo + (j : Int)) t) ≠ 0 →
        (j = 0 ∨ image.pixel (Fin.cons (lo + ((j - 1 : Nat) : Int)) t) = 0) →
        (Fin.cons (lo + (j : Int)) t : IndexType (D + 1)) ∈ S) ∧
      (∀ t ∈ rows, ∀ j : Nat, j < n → image.pixel (Fin.cons (lo + (j : Int)) t) ≠ 0 →
        (j + 1 = n ∨ (j + 1 < n ∧ image.pixel (Fin.cons (lo + ((j + 1 : Nat) : Int)) t) = 0)) →
        (Fin.cons (lo + (j : Int)) t : IndexType (D + 1)) ∈ S) := by
  intro rows
  induction rows with
  | nil =>
    intro st0 S0 hc hv hh
    refine ⟨by simpa using hc, by simpa using hv, S0, by simpa using hh, subset_refl S0,
      fun p hp => Or.inl hp, ?_, ?_⟩
    · intro t ht
      cases ht
    · intro t ht
      cases ht
  | cons t rest ih =>
    intro st0 S0 hc hv hh
    obtain ⟨hc1, hv1, -, S1, hS1, hS01, hsub1, hB1, hB2⟩ :=
      scanRow_spec image T n (fun (j : Nat) => (Fin.cons (lo + (j : Int)) t : IndexType (D + 1)))
        st0 S0 hn hc hv hh n (le_refl n)
    simp only [if_true, true_or] at hc1 hv1
    rw [List.flatMap_cons, List.foldl_append, row_indices_eq]
    generalize ((List.range n).map
      (fun (j : Nat) => (Fin.cons (lo + (j : Int)) t : IndexType (D + 1)))).foldl
        (scanPixel image T n) st0 = st1 at hc1 hv1 hS1
    obtain ⟨hc2, hv2, S, hS, hS1S, hsub, hR1, hR2⟩ := ih st1 S1 hc1 hv1 hS1
    refine ⟨hc2, hv2, S, hS, fun p hp => hS1S (hS01 hp), ?_, ?_, ?_⟩
    · intro p hp
      rcases hsub p hp with h | ⟨t', ht', j, hj, hpj, hnz⟩
      · rcases hsub1 p h with h0 | ⟨j, hj, hpj, hnz⟩
        · exact Or.inl h0
        · exact Or.inr ⟨t, List.mem_cons_self _ _, j, hj, hpj, by rw [hpj]; exact hnz⟩
      · exact Or.inr ⟨t', List.mem_cons_of_mem _ ht', j, hj, hpj, hnz⟩
    · intro t' ht' j hj hnz hstart
      rcases List.mem_cons.mp ht' with h | h
      · subst h
        exact hS1S (hB1 j hj hnz hstart)
      · exact hR1 t' h j hj hnz hstart
    · intro t' ht' j hj hnz hend
      rcases List.mem_cons.mp ht' with h | h
      · subst h
        exact hS1S (hB2 j hj hnz hend)
      · exact hR2 t' h j hj hnz hend

/-- Along a row an affine map changes by a constant amount per pixel. -/
theorem affine_along_row {D : Nat} (T : IndexType (D + 1) → PointType (D + 1))
    (hT : IsAffine T) (t : IndexType D) (c : Fin (D + 1)) :
    ∃ a b : ℚ, ∀ v : Int, T (Fin.cons v t) c = a + b * (v : ℚ) := by
  obtain ⟨origin, M, hM⟩ := hT
  refine ⟨origin c + ∑ d : Fin D, M c d.succ * (t d : ℚ), M c 0, fun v => ?_⟩
  rw [hM, Fin.sum_univ_succ]
  simp only [Fin.cons_zero, Fin.cons_succ]
  ring

/-- An index of a region of dimension `D + 1` is a pixel of one of its rows. -/
theorem mem_region_rows {D : Nat} (R : ImageRegion (D + 1)) (p : IndexType (D + 1)) :
    R.IsInside p ↔
      ∃ t ∈ regionIndices D (fun d => R.Index d.succ) (fun d => R.Size d.succ),
        ∃ j : Nat, j < R.Size 0 ∧ p = Fin.cons (R.Index 0 + (j : Int)) t := by
  constructor
  · intro h
    refine ⟨fun d => p d.succ, (mem_regionIndices D _ _ _).mpr (fun d => h d.succ),
      (p 0 - R.Index 0).toNat, ?_, ?_⟩
    · have := h 0
      omega
    · funext d
      refine Fin.cases ?_ (fun e => ?_) d
      · have := h 0
        simp only [Fin.cons_zero]
        omega
      · simp
  · rintro ⟨t, ht, j, hj, rfl⟩ d
    have ht' := (mem_regionIndices D _ _ _).mp ht
    refine Fin.cases ?_ (fun e => ?_) d
    · simp only [Fin.cons_zero]
      omega
    · simpa using ht' e

/-- The state in which the loop of `ComputeMyBoundingBox` ends when the row size fits in an
`int`: the box is the hull of a set of non-zero pixels of the largest possible region that
holds, for every row, the first and the last pixel of each stretch of non-zero pixels. -/
theorem scanRegion_spec {D : Nat} (image : Image (D + 1))
    (T : IndexType (D + 1) → PointType (D + 1)) (box : BoundingBox (D + 1))
    (hrow : image.LargestPossibleRegion.Size 0 < 2147483648) :
    ∃ S : Set (IndexType (D + 1)),
      IsHullOf T ((regionIndices (D + 1) image.LargestPossibleRegion.Index
          image.LargestPossibleRegion.Size).foldl
        (scanPixel image T (image.LargestPossibleRegion.Size 0 : Int))
        { first := true, prevValue := 0, count := 0,
          prevIt := image.LargestPossibleRegion.Index, box := box }) S ∧
      (∀ p ∈ S, image.LargestPossibleRegion.IsInside p ∧ image.pixel p ≠ 0) ∧
      (∀ p, image.LargestPossibleRegion.IsInside p → image.pixel p ≠ 0 →
        ∃ (t : IndexType D) (j1 j j2 : Nat), j1 ≤ j ∧ j ≤ j2 ∧
          p = Fin.cons (image.LargestPossibleRegion.Index 0 + (j : Int)) t ∧
          (Fin.cons (image.LargestPossibleRegion.Index 0 + (j1 : Int)) t
            : IndexType (D + 1)) ∈ S ∧
          (Fin.cons (image.LargestPossibleRegion.Index 0 + (j2 : Int)) t
            : IndexType (D + 1)) ∈ S) := by
  obtain ⟨-, -, S, hS, -, hsub, hR1, hR2⟩ := scanRows_spec image T
    (image.LargestPossibleRegion.Size 0) (image.LargestPossibleRegion.Index 0)
    hrow
    (regionIndices D (fun d => image.LargestPossibleRegion.Index d.succ)
      (fun d => image.LargestPossibleRegion.Size d.succ))
    { first := true, prevValue := 0, count := 0,
      prevIt := image.LargestPossibleRegion.Index, box := box } ∅ rfl rfl (Or.inl ⟨rfl, rfl⟩)
  refine ⟨S, hS, ?_, ?_⟩
  · intro p hp
    rcases hsub p hp with h | ⟨t, ht, j, hj, hpj, hnz⟩
    · exact absurd h (Set.not_mem_empty p)
    · exact ⟨(mem_region_rows _ p).mpr ⟨t, ht, j, hj, hpj⟩, hnz⟩
  · intro p hpin hnz
    obtain ⟨t, ht, j, hj, hpj⟩ := (mem_region_rows _ p).mp hpin
    rw [hpj] at hnz
    obtain ⟨j1, h1, h1nz, h1s⟩ := run_start
      (fun (k : Nat) => image.pixel (Fin.cons (image.LargestPossibleRegion.Index 0 + (k : Int)) t))
      j hnz
    obtain ⟨j2, h2, h2n, h2nz, h2e⟩ := run_end
      (fun (k : Nat) => image.pixel (Fin.cons (image.LargestPossibleRegion.Index 0 + (k : Int)) t))
      (image.LargestPossibleRegion.Size 0) (image.LargestPossibleRegion.Size 0 - 1 - j) j
      (by omega) hnz
    exact ⟨t, j1, j, j2, h1, h2, hpj, hR1 t ht j1 (by omega) h1nz h1s,
      hR2 t ht j2 h2n h2nz h2e⟩

/-- On rows that fit in an `int`: for every image whose largest possible region has fewer
than `2^31` pixels in a row, and every affine map from indices to physical points,
`ComputeMyBoundingBox` leaves a bounding box such that: when the region has a non-zero
pixel, every coordinate of the minimum (maximum) corner is the least (greatest) value of
that coordinate over the physical points of all non-zero pixels of the region; when no
pixel of the region is non-zero, both corners are the all-zero point. -/
theorem ComputeMyBoundingBox_hull {D : Nat} (image : Image (D + 1))
    (T : IndexType (D + 1) → PointType (D + 1)) (box : BoundingBox (D + 1))
    (hT : IsAffine T) (hrow : image.LargestPossibleRegion.Size 0 < 2147483648) :
    ∃ b : BoundingBox (D + 1),
      ComputeMyBoundingBox (some image) T box = some b ∧
      ((∃ p, image.LargestPossibleRegion.IsInside p ∧ image.pixel p ≠ 0) →
        ∀ c : Fin (D + 1),
          (∀ p, image.LargestPossibleRegion.IsInside p → image.pixel p ≠ 0 →
            b.Minimum c ≤ T p c ∧ T p c ≤ b.Maximum c) ∧
          (∃ p, image.LargestPossibleRegion.IsInside p ∧ image.pixel p ≠ 0 ∧
            T p c = b.Minimum c) ∧
          (∃ p, image.LargestPossibleRegion.IsInside p ∧ image.pixel p ≠ 0 ∧
            T p c = b.Maximum c)) ∧
      ((∀ p, image.LargestPossibleRegion.IsInside p → image.pixel p = 0) →
        b.Minimum = (fun _ => 0) ∧ b.Maximum = (fun _ => 0)) := by
  obtain ⟨S, hS, hSnz, hcover⟩ := scanRegion_spec image T box hrow
  have hw : wrapInt (image.LargestPossibleRegion.Size 0 : Int)
      = (image.LargestPossibleRegion.Size 0 : Int) :=
    wrapInt_of_range _ (by omega) (by omega)
  simp only [ComputeMyBoundingBox, hw]
  generalize (regionIndices (D + 1) image.LargestPossibleRegion.Index
      image.LargestPossibleRegion.Size).foldl
    (scanPixel image T (image.LargestPossibleRegion.Size 0 : Int))
    { first := true, prevValue := 0, count := 0,
      prevIt := image.LargestPossibleRegion.Index, box := box } = st at hS
  rcases hS with ⟨hfirst, hempty⟩ | ⟨hfirst, hull⟩
  · -- nothing was considered: no pixel is non-zero
    refine ⟨(st.box.SetMinimum (fun _ => 0)).SetMaximum (fun _ => 0), by simp [hfirst], ?_, ?_⟩
    · rintro ⟨p, hpin, hp⟩
      obtain ⟨t, j1, j, j2, -, -, -, h1, -⟩ := hcover p hpin hp
      rw [hempty] at h1
      exact absurd h1 (Set.not_mem_empty _)
    · intro _
      exact ⟨rfl, rfl⟩
  · refine ⟨st.box, by simp [hfirst], ?_, ?_⟩
    · intro _ c
      obtain ⟨hcov, ⟨pmin, hpmin, hmin⟩, ⟨pmax, hpmax, hmax⟩⟩ := hull c
      refine ⟨?_, ⟨pmin, (hSnz pmin hpmin).1, (hSnz pmin hpmin).2, hmin⟩,
        ⟨pmax, (hSnz pmax hpmax).1, (hSnz pmax hpmax).2, hmax⟩⟩
      intro p hpin hp
      obtain ⟨t, j1, j, j2, h1, h2, hpj, hs1, hs2⟩ := hcover p hpin hp
      obtain ⟨a, b, hab⟩ := affine_along_row T hT t c
      have c1 := hcov _ hs1
      have c2 := hcov _ hs2
      rw [hab] at c1 c2
      rw [hpj, hab]
      have e1 : (j1 : ℚ) ≤ (j : ℚ) := by exact_mod_cast h1
      have e2 : (j : ℚ) ≤ (j2 : ℚ) := by exact_mod_cast h2
      push_cast at c1 c2 ⊢
      clear hrow hw
      rcases le_total 0 b with hb | hb
      · constructor
        · nlinarith [mul_le_mul_of_nonneg_left e1 hb]
        · nlinarith [mul_le_mul_of_nonneg_left e2 hb]
      · constructor
        · nlinarith [mul_le_mul_of_nonpos_left e2 hb]
        · nlinarith [mul_le_mul_of_nonpos_left e1 hb]
    · intro hzero
      exfalso
      obtain ⟨-, ⟨pmin, hpmin, -⟩, -⟩ := hull 0
      exact (hSnz pmin hpmin).2 (hzero pmin (hSnz pmin hpmin).1)

/-- The image `exImage`, whose rows have 4 pixels, with the identity map from indices to
points: an instance of `ComputeMyBoundingBox_hull`. -/
theorem ComputeMyBoundingBox_hull_witness :
    ∃ b : BoundingBox 2,
      ComputeMyBoundingBox (some exImage) (identityTransform 2)
        { Minimum := fun _ => 0, Maximum := fun _ => 0 } = some b ∧
      ((∃ p, exImage.LargestPossibleRegion.IsInside p ∧ exImage.pixel p ≠ 0) →
        ∀ c : Fin 2,
          (∀ p, exImage.LargestPossibleRegion.IsInside p → exImage.pixel p ≠ 0 →
            b.Minimum c ≤ identityTransform 2 p c ∧ identityTransform 2 p c ≤ b.Maximum c) ∧
          (∃ p, exImage.LargestPossibleRegion.IsInside p ∧ exImage.pixel p ≠ 0 ∧
            identityTransform 2 p c = b.Minimum c) ∧
          (∃ p, exImage.LargestPossibleRegion.IsInside p ∧ exImage.pixel p ≠ 0 ∧
            identityTransform 2 p c = b.Maximum c)) ∧
      ((∀ p, exImage.LargestPossibleRegion.IsInside p → exImage.pixel p = 0) →
        b.Minimum = (fun _ => 0) ∧ b.Maximum = (fun _ => 0)) :=
  ComputeMyBoundingBox_hull exImage (identityTransform 2)
    { Minimum := fun _ => 0, Maximum := fun _ => 0 }
    ⟨fun _ => 0, fun c d => if c = d then 1 else 0, fun i c => by
      simp [identityTransform, Finset.sum_ite_eq]⟩
    (by simp [exImage])

/-! ## Rows longer than an `int` holds (C22) -/

/-- The indices of a two-dimensional region of one row. -/
theorem regionIndices_single_row (index : IndexType 2) (size : SizeType 2) (h : size 1 = 1) :
    regionIndices 2 index size
      = (List.range (size 0)).map
          (fun (j : Nat) => (Fin.cons (index 0 + (j : Int)) (fun _ => index 1) : IndexType 2)) := by
  have ht : (Fin.cons (index 1 + 0) (fun i : Fin 0 => i.elim0) : IndexType 1)
      = fun _ => index 1 := by
    funext d
    fin_cases d
    simp
  have h1 : (1 : Fin 2) = Fin.succ (0 : Fin 1) := rfl
  have hr1 : List.range 1 = [0] := rfl
  simp only [regionIndices, List.flatMap_cons, List.flatMap_nil, List.append_nil]
  rw [← h1, h]
  simp only [indexValues, hr1, List.map_cons, List.map_nil, Nat.cast_zero,
    List.flatMap_cons, List.flatMap_nil, List.append_nil, List.map_map, Function.comp_def]
  rw [ht]

/-- A stretch of zero pixels scanned from `prevValue = 0` considers no point; `count`
advances modulo the value of `rowSize`. -/
theorem scan_zero_run {D : Nat} (image : Image D) (T : IndexType D → PointType D) (r : Nat)
    (hr0 : 0 < r) (hr : r < 2147483648) (idx : Nat → IndexType D) (st0 : BoundingBoxScan D)
    (h0c : st0.count = 0) (h0v : st0.prevValue = 0) :
    ∀ k : Nat, (∀ j, j < k → image.pixel (idx j) = 0) →
      (((List.range k).map idx).foldl (scanPixel image T r) st0).first = st0.first ∧
      (((List.range k).map idx).foldl (scanPixel image T r) st0).box = st0.box ∧
      (((List.range k).map idx).foldl (scanPixel image T r) st0).prevValue = 0 ∧
      (((List.range k).map idx).foldl (scanPixel image T r) st0).count = ((k % r : Nat) : Int) := by
  intro k
  induction k with
  | zero =>
    intro _
    simp [h0c, h0v]
  | succ k ih =>
    intro hz
    obtain ⟨i1, i2, i3, i4⟩ := ih (fun j hj => hz j (by omega))
    rw [List.range_succ, List.map_append, List.foldl_append]
    simp only [List.map_cons, List.map_nil, List.foldl_cons, List.foldl_nil]
    generalize (((List.range k).map idx).foldl (scanPixel image T r) st0) = st at i1 i2 i3 i4
    have hlt : k % r < r := Nat.mod_lt k hr0
    obtain ⟨-, f2, f3, -, f5⟩ := scanPixel_fields image T r st (idx k)
      (by omega) (by rw [i4]; omega) (by rw [i4]; omega)
    have hpix : image.pixel (idx k) = 0 := hz k (by omega)
    have hno : ¬ (image.pixel (idx k) ≠ st.prevValue ∨
        (st.count = (r : Int) - 1 ∧ image.pixel (idx k) ≠ 0)) := by
      rw [hpix, i3]
      simp
    obtain ⟨g1, g2⟩ := f5 hno
    refine ⟨by rw [g1, i1], by rw [g2, i2], ?_, ?_⟩
    · rw [f3, hpix]
      simp
    · rw [f2, i4]
      have hmod := Nat.add_mod_eq_ite (m := k) (n := 1) (k := r)
      by_cases h1 : r = 1
      · subst h1
        simp [Nat.mod_one]
      · have h1r : 1 % r = 1 := Nat.mod_eq_of_lt (by omega)
        rw [h1r] at hmod
        rw [hmod]
        split_ifs <;> omega

/-- A row of zero pixels followed by two equal non-zero pixels: when `count` is not at
`rowSize - 1` at the second of them, only the first of them is considered. -/
theorem scan_zero_run_then_two {D : Nat} (image : Image D) (T : IndexType D → PointType D)
    (r : Nat) (hr : r < 2147483648) (idx : Nat → IndexType D) (st0 : BoundingBoxScan D)
    (N : Nat) (hN : N % r + 2 < r)
    (h0c : st0.count = 0) (h0v : st0.prevValue = 0) (h0f : st0.first = true)
    (hz : ∀ j, j < N → image.pixel (idx j) = 0)
    (h1 : image.pixel (idx N) ≠ 0) (h2 : image.pixel (idx (N + 1)) = image.pixel (idx N)) :
    (((List.range (N + 1 + 1)).map idx).foldl (scanPixel image T r) st0).first = false ∧
    (((List.range (N + 1 + 1)).map idx).foldl (scanPixel image T r) st0).box
      = (st0.box.SetMinimum (T (idx N))).SetMaximum (T (idx N)) := by
  obtain ⟨i1, i2, i3, i4⟩ := scan_zero_run image T r (by omega) hr idx st0 h0c h0v N hz
  rw [List.range_succ, List.range_succ, List.map_append, List.map_append, List.foldl_append,
    List.foldl_append]
  simp only [List.map_cons, List.map_nil, List.foldl_cons, List.foldl_nil]
  generalize (((List.range N).map idx).foldl (scanPixel image T r) st0) = st at i1 i2 i3 i4
  -- the first non-zero pixel is considered
  obtain ⟨-, f2, f3, f4, -⟩ := scanPixel_fields image T r st (idx N)
    (by omega) (by rw [i4]; omega) (by rw [i4]; omega)
  obtain ⟨g1, g2⟩ := f4 (Or.inl (by rw [i3]; exact h1))
  rw [i1, h0f, i2, if_neg h1] at g2
  simp only [if_true] at g2
  rw [i4, if_neg (by omega)] at f2 f3
  generalize scanPixel image T r st (idx N) = st1 at f2 f3 g1 g2
  -- the second one is not
  obtain ⟨-, -, -, -, f5⟩ := scanPixel_fields image T r st1 (idx (N + 1))
    (by omega) (by rw [f2]; omega) (by rw [f2]; omega)
  have hno : ¬ (image.pixel (idx (N + 1)) ≠ st1.prevValue ∨
      (st1.count = (r : Int) - 1 ∧ image.pixel (idx (N + 1)) ≠ 0)) := by
    rw [f3, h2, f2]
    intro h
    rcases h with h | ⟨h, -⟩
    · exact h rfl
    · omega
  obtain ⟨k1, k2⟩ := f5 hno
  exact ⟨by rw [k1, g1], by rw [k2, g2]⟩

/-- C22. The image `exLongRow` has one row of `2^32 + 7` pixels, of which only the last
two, `(2^32 + 5, 0)` and `(2^32 + 6, 0)`, are non-zero.  With the identity map from indices
to points, `ComputeMyBoundingBox` (whose `int rowSize` is 7 there) leaves the box with both
corners at `(2^32 + 5, 0)`: the maximum corner is not the greatest coordinate over the
non-zero pixels, the non-zero pixel `(2^32 + 6, 0)` of the region lies outside the box. -/
theorem ComputeMyBoundingBox_long_row_misses_last_pixel :
    ComputeMyBoundingBox (some exLongRow) (identityTransform 2)
        { Minimum := fun _ => 0, Maximum := fun _ => 0 }
      = some { Minimum := ![4294967301, 0], Maximum := ![4294967301, 0] } ∧
    exLongRow.LargestPossibleRegion.IsInside ![4294967302, 0] ∧
    exLongRow.pixel ![4294967302, 0] ≠ 0 ∧
    ¬ (identityTransform 2 ![4294967302, 0] 0
        ≤ (![4294967301, 0] : PointType 2) 0) := by
  refine ⟨?_, ?_, ?_, ?_⟩
  · have hw : wrapInt ((exLongRow.LargestPossibleRegion.Size 0 : Nat) : Int) = ((7 : Nat) : Int) := by
      simp [exLongRow, wrapInt]
    have hl : regionIndices 2 exLongRow.LargestPossibleRegion.Index
        exLongRow.LargestPossibleRegion.Size
        = (List.range (4294967301 + 1 + 1)).map
            (fun (j : Nat) => (Fin.cons (0 + (j : Int)) (fun _ => 0) : IndexType 2)) := by
      rw [regionIndices_single_row _ _ (by simp [exLongRow])]
      rfl
    obtain ⟨a1, a2⟩ := scan_zero_run_then_two exLongRow (identityTransform 2) 7 (by omega)
      (fun (j : Nat) => (Fin.cons (0 + (j : Int)) (fun _ => 0) : IndexType 2))
      { first := true, prevValue := 0, count := 0,
        prevIt := exLongRow.LargestPossibleRegion.Index,
        box := { Minimum := fun _ => 0, Maximum := fun _ => 0 } }
      4294967301 (by omega) rfl rfl rfl
      (by
        intro j hj
        simp only [exLongRow, Fin.cons_zero]
        rw [if_neg]
        rintro ⟨h | h, -⟩ <;> omega)
      (by simp [exLongRow])
      (by simp [exLongRow])
    have hp : identityTransform 2
        (Fin.cons (0 + ((4294967301 : Nat) : Int)) (fun _ => 0) : IndexType 2)
        = ![4294967301, 0] := by
      funext c
      fin_cases c <;> simp [identityTransform]
    simp only [ComputeMyBoundingBox, hw, hl]
    rw [a1, a2]
    simp only [Bool.false_eq_true, if_false, BoundingBox.SetMinimum, BoundingBox.SetMaximum]
    rw [hp]
  · intro d
    fin_cases d <;> simp [exLongRow]
  · simp [exLongRow]
  · simp [identityTransform]
    norm_num

end itk
